import Mathlib

/-!
Shallow embedding of the protein-modeler backend (scoring, hub/cluster
analysis, graph assembly, and data-collection merge/validate stages), with
theorems settling the specification claims.

Modelling conventions, used throughout:
* Python floats are modelled as exact rationals (`Rat`); `None` as `Option.none`.
* Python's stable `list.sort(key=..., reverse=True)` is modelled by
  `List.mergeSort` with the comparator "key of the left argument is ≥ key of
  the right argument"; any two stable sorts under the same total preorder
  produce the same list, so this is extensionally faithful to CPython's sort.
* A Python `x or y` on floats/strings falls back on falsy values
  (`None`, `0.0`, `""`), modelled by the `pyOr...` helpers below.
* Database query results (`db.query(...).all()`) are modelled as lists in
  stored order; SQL comparisons with NULL are false, so rows whose compared
  column is `none` are excluded by filters, exactly as modelled.
* Loosely-typed candidate records from the data-collection stage are modelled
  as association lists of `PyValue`s (Python dicts with unique keys).
-/

namespace ProteinModeler

/-- Python truthiness of a float value: `0.0` is falsy, everything else truthy. -/
def ratTruthy (q : Rat) : Bool := q != 0

/-- Python `x or d` where `x` is an optional float: returns `d` when `x` is
`None` or `0.0` (falsy), else the value of `x`. -/
def pyOrRat (x : Option Rat) (d : Rat) : Rat :=
  match x with
  | none => d
  | some v => if v = 0 then d else v

/-- Python `a or b` on optional strings: `a` when `a` is a non-empty string,
else `b` (which is returned as-is, whatever its truthiness). -/
def pyOrStr (a b : Option String) : Option String :=
  match a with
  | none => b
  | some s => if s = "" then b else some s

/-- Source `normalize(x, min_val, max_val, fallback)` from
`scoring/opportunity_scorer.py`: fallback on missing input, else clamp to
`[min_val, max_val]` and rescale to `[0, 1]` (fallback again when the range is
degenerate). The source also falls back on non-float inputs, which the typed
embedding cannot represent. -/
def normalize (x : Option Rat) (minVal maxVal fallback : Rat) : Rat :=
  match x with
  | none => fallback
  | some v =>
    let clamped := max minVal (min maxVal v)
    let rangeVal := maxVal - minVal
    if rangeVal = 0 then fallback else (clamped - minVal) / rangeVal

/-- Source `calculate_gap_score` from `scoring/opportunity_scorer.py`. -/
def calculate_gap_score (strength burden : Option Rat) (maturity : Option String) : Rat :=
  let s := normalize strength 0 1 0.3
  let b := normalize burden 0 1 0.5
  let m : Rat :=
    if maturity = some "none" ∨ maturity = none then 1.0
    else if maturity = some "trial" then 0.5
    else if maturity = some "approved" then 0.1
    else 0.8
  s * b * m

/-- Spec-side `clamp01(x, fallback)` (§4.1 of the spec): written from the
spec's words, to be compared with the source-side `normalize`. -/
def clamp01_spec (x : Option Rat) (fallback : Rat) : Rat :=
  match x with
  | none => fallback
  | some v => max 0 (min 1 v)

/-- Spec-side maturity multiplier (claim C2's words): none/missing → 1.0,
trial → 0.5, approved → 0.1, any other value → 0.8. -/
def maturity_mult_spec (maturity : Option String) : Rat :=
  match maturity with
  | none => 1.0
  | some s => if s = "none" then 1.0 else if s = "trial" then 0.5
              else if s = "approved" then 0.1 else 0.8

/-- Source `calculate_repurposing_score` from `scoring/repurposing_finder.py`.
The fallbacks use Python truthiness (`x or 0.5`), so a present `0.0` also
falls back to `0.5`. -/
def calculate_repurposing_score (strength burden : Option Rat) (maturity : Option String) : Rat :=
  let s := pyOrRat strength 0.5
  let b := pyOrRat burden 0.5
  let maturityBonus : Rat := if maturity = some "none" ∨ maturity = none then 1.5 else 1.0
  let riskFactor : Rat := 1.2
  s * b * maturityBonus * riskFactor

/-- Round a rational to the nearest integer, ties to even (the rounding used
by Python percent formatting, idealized to exact rationals). -/
def roundHalfEven (x : Rat) : Int :=
  let f := ⌊x⌋
  let frac := x - (f : Rat)
  if frac < 1/2 then f
  else if 1/2 < frac then f + 1
  else if f % 2 = 0 then f else f + 1

/-- Python `f"{x:.0%}"`: the value times 100, rounded to an integer, with a
percent sign. -/
def formatPct (x : Rat) : String := toString (roundHalfEven (x * 100)) ++ "%"

/-- Source `generate_rationale` from `scoring/opportunity_scorer.py`. Strength
and burden fall back to `0.5` by Python truthiness (`x or 0.5`). -/
def generate_rationale (diseaseName proteinName : String)
    (strength burden : Option Rat) (maturity : Option String) (gapScore : Rat) : String :=
  let s := pyOrRat strength 0.5
  let b := pyOrRat burden 0.5
  let r1 := "Therapeutic opportunity for " ++ proteinName ++ " in " ++ diseaseName ++ ". "
  let r2 := r1 ++
    (if 0.7 < s then "Strong association (" ++ formatPct s ++ ") between target and disease. "
     else if 0.5 < s then "Moderate association (" ++ formatPct s ++ ") between target and disease. "
     else "Association (" ++ formatPct s ++ ") identified between target and disease. ")
  let r3 := r2 ++
    (if 0.7 < b then "High disease burden indicates significant unmet need. "
     else if 0.5 < b then "Moderate disease burden suggests therapeutic value. "
     else "")
  let r4 := r3 ++
    (if maturity = some "none" ∨ maturity = none then
      "No approved therapies currently target this protein-disease pair. "
     else if maturity = some "trial" then
      "Therapies are in development but not yet approved. "
     else if maturity = some "approved" then
      "Approved therapies exist but may have limitations. "
     else "")
  r4 ++ "Opportunity score: " ++ formatPct gapScore ++ "."

/-- Python `x or y or z` on two optional strings with a final plain-string
fallback, as in `protein.symbol or protein.name or protein.id`. -/
def pyOrStrVal (a : Option String) (b : String) : String :=
  match a with
  | none => b
  | some s => if s = "" then b else s

/-- Row of the `diseases` table (`database.py`): `id` and `name` are
non-nullable, `category` and `burden_score` are nullable. -/
structure Disease where
  id : String
  name : String
  category : Option String
  burden_score : Option Rat
deriving DecidableEq

/-- Row of the `proteins` table: `id` and `uniprot_id` non-nullable. -/
structure Protein where
  id : String
  uniprot_id : String
  symbol : Option String
  name : Option String
  family : Option String
deriving DecidableEq

/-- Row of the `associations` table: `id`, `disease_id`, `protein_id`
non-nullable; strength, evidence and maturity nullable. -/
structure Association where
  id : String
  disease_id : String
  protein_id : String
  association_strength : Option Rat
  evidence_text : Option String
  maturity : Option String
deriving DecidableEq

/-- Row of the `therapies` table: `id`, `name`, `target_protein_id`, `status`
non-nullable; `indications` is a nullable JSON list of disease names. -/
structure Therapy where
  id : String
  name : String
  target_protein_id : String
  status : String
  indications : Option (List String)
deriving DecidableEq

/-- The queryable store (`db: Session`): lists of rows in stored order. -/
structure DB where
  diseases : List Disease
  proteins : List Protein
  associations : List Association
  therapies : List Therapy
deriving DecidableEq

/-- Python `list.sort(key=k, reverse=True)`: a stable sort placing larger keys
first. `List.mergeSort` is stable, and any two stable sorts under the same
total preorder agree, so this is extensionally CPython's sort. -/
def sortByKeyDesc {α : Type} {β : Type} [LinearOrder β] (key : α → β) (l : List α) : List α :=
  l.mergeSort (fun x y => decide (key y ≤ key x))

/-- `Opportunity` response model (`models.py`). -/
structure Opportunity where
  disease_id : String
  protein_id : String
  gap_score : Rat
  rationale : String
  disease_name : Option String
  protein_name : Option String
deriving DecidableEq

/-- Source expression `protein.symbol or protein.name or protein.id`. -/
def protein_display (p : Protein) : String :=
  pyOrStrVal p.symbol (pyOrStrVal p.name p.id)

/-- One iteration of the loop body of `calculate_opportunities`
(`scoring/opportunity_scorer.py`): keep the association when its maturity is
in `["none", "trial", None]` and both its disease and protein resolve
(`.first()` = first matching row), and build the `Opportunity`. -/
def opportunityFor (db : DB) (a : Association) : Option Opportunity :=
  if a.maturity = some "none" ∨ a.maturity = some "trial" ∨ a.maturity = none then
    match db.diseases.find? (fun d => d.id == a.disease_id),
          db.proteins.find? (fun p => p.id == a.protein_id) with
    | some disease, some protein =>
      let gapScore := calculate_gap_score a.association_strength disease.burden_score a.maturity
      let display := protein_display protein
      some {
        disease_id := a.disease_id
        protein_id := a.protein_id
        gap_score := gapScore
        rationale := generate_rationale disease.name display a.association_strength
          disease.burden_score a.maturity gapScore
        disease_name := some disease.name
        protein_name := some display }
    | _, _ => none
  else none

/-- Source `calculate_opportunities`: collect opportunities in association
iteration order, sort by `gap_score` descending (stable), take `limit`.
The web layer constrains `limit` to be a positive integer, so it is a `Nat`. -/
def calculate_opportunities (db : DB) (limit : Nat) : List Opportunity :=
  let opportunities := db.associations.filterMap (opportunityFor db)
  (sortByKeyDesc (fun o => o.gap_score) opportunities).take limit

/-- First occurrences of the elements of a list, in order (the insertion order
of a Python `dict`/insertion-checked list build). -/
def firstOccs {κ : Type} [DecidableEq κ] (l : List κ) : List κ :=
  l.foldl (fun acc k => if k ∈ acc then acc else acc ++ [k]) []

/-- Number of elements of `l` equal to `k`. -/
def countKey {κ : Type} [DecidableEq κ] (l : List κ) (k : κ) : Nat :=
  (l.filter (fun x => x == k)).length

/-- Update the first entry of an insertion-ordered keyed list whose key is `k`
with `f`, or append `(k, v0)` when no entry has that key: the behaviour of a
Python `dict` update. -/
def updEntry {κ ν : Type} [DecidableEq κ] (m : List (κ × ν)) (k : κ) (f : ν → ν) (v0 : ν) :
    List (κ × ν) :=
  match m with
  | [] => [(k, v0)]
  | (k1, v) :: rest => if k1 = k then (k1, f v) :: rest else (k1, v) :: updEntry rest k f v0

/-- Python `defaultdict(int)` tallying loop: count occurrences per key, keys
in first-occurrence order. -/
def tally {κ : Type} [DecidableEq κ] (l : List κ) : List (κ × Nat) :=
  l.foldl (fun m k => updEntry m k (fun c => c + 1) 1) []

/-- Source `identify_protein_hubs` from `scoring/hub_analyzer.py`: count
associations per protein, keep counts `≥ min_diseases`, sort by count
descending (stable). `min_diseases` is a count threshold, modelled as `Nat`. -/
def identify_protein_hubs (db : DB) (minDiseases : Nat) : List (String × Nat) :=
  let counts := db.associations.foldl (fun m a => updEntry m a.protein_id (fun c => c + 1) 1) []
  let hubs := counts.filter (fun pc => decide (minDiseases ≤ pc.2))
  sortByKeyDesc (fun pc => pc.2) hubs

/-- Ordering asserted by claim C5 for the hub list: strictly larger count
first, ties broken by protein id ascending. -/
def hubClaimOrder (x y : String × Nat) : Prop :=
  y.2 < x.2 ∨ (x.2 = y.2 ∧ x.1 < y.1)

/-- Cluster record emitted by `find_disease_clusters`. The order of
`shared_proteins` (a Python set, iteration order unspecified) is fixed here to
the first-occurrence order of the first disease's protein set; no theorem
below depends on the order of this field. -/
structure Cluster where
  disease1_id : String
  disease2_id : String
  shared_proteins : List String
  shared_count : Nat
deriving DecidableEq

/-- The `disease -> set(protein_id)` mapping built by `find_disease_clusters`:
keys in first-occurrence order, each set stored as an insertion-ordered
duplicate-free list (Python set contents; only membership and size are
observed by the source). -/
def diseaseProteins (assocs : List Association) : List (String × List String) :=
  assocs.foldl
    (fun m a => updEntry m a.disease_id
      (fun s => if a.protein_id ∈ s then s else s ++ [a.protein_id]) [a.protein_id]) []

/-- All ordered pairs `(l[i], l[j])` with `i < j`, in the iteration order of
the source's nested loop `for i, d1 in enumerate(ids): for d2 in ids[i+1:]`. -/
def upperPairs {κ : Type} : List κ → List (κ × κ)
  | [] => []
  | x :: xs => xs.map (fun y => (x, y)) ++ upperPairs xs

/-- Source `find_disease_clusters` from `scoring/hub_analyzer.py`: for every
unordered disease pair (first-occurrence order), emit a cluster when the
protein-set intersection has size `≥ min_shared_proteins`; sort by shared
count descending (stable). -/
def find_disease_clusters (db : DB) (minShared : Nat) : List Cluster :=
  let dp := diseaseProteins db.associations
  let clusters := (upperPairs dp).filterMap (fun pr =>
    let shared := pr.1.2.filter (fun p => pr.2.2.contains p)
    if minShared ≤ shared.length then
      some { disease1_id := pr.1.1, disease2_id := pr.2.1,
             shared_proteins := shared, shared_count := shared.length }
    else none)
  sortByKeyDesc (fun c => c.shared_count) clusters

/-- Protein ids associated with disease `d`, in association order (with
duplicates), read directly off the association list. -/
def assocProteins (assocs : List Association) (d : String) : List String :=
  (assocs.filter (fun a => a.disease_id == d)).map (fun a => a.protein_id)

/-- Number of distinct proteins associated with both `d` and `e` (the spec's
"set intersection size" for a disease pair). -/
def sharedCountSpec (assocs : List Association) (d e : String) : Nat :=
  ((firstOccs (assocProteins assocs d)).filter
    (fun p => decide (p ∈ assocProteins assocs e))).length

/-- Two cluster records name the same unordered disease pair. -/
def sameDiseasePair (r1 r2 : Cluster) : Prop :=
  (r1.disease1_id = r2.disease1_id ∧ r1.disease2_id = r2.disease2_id)
  ∨ (r1.disease1_id = r2.disease2_id ∧ r1.disease2_id = r2.disease1_id)

/-- Bare association row for concrete test stores. -/
def mkAssoc (aid did pid : String) : Association :=
  { id := aid, disease_id := did, protein_id := pid,
    association_strength := none, evidence_text := none, maturity := none }

/-- Python truthiness of an optional string (`if category:`): `None` and the
empty string are falsy. -/
def strOptTruthy (o : Option String) : Bool :=
  match o with
  | none => false
  | some s => s != ""

/-- Graph node (`models.py` `GraphNode`); `ntype` is the `type` field. -/
structure GraphNode where
  id : String
  ntype : String
  label : String
  burden : Option Rat
  degree : Option Nat
  maturity : Option String
deriving DecidableEq

/-- Graph edge (`models.py` `GraphEdge`). -/
structure GraphEdge where
  id : String
  source : String
  target : String
  strength : Option Rat
deriving DecidableEq

/-- Graph response (`models.py` `GraphResponse`). -/
structure GraphResponse where
  nodes : List GraphNode
  edges : List GraphEdge
deriving DecidableEq

/-- Diseases kept by `get_graph` (`main.py`): all of them, or those matching
the category filter when it is truthy. -/
def graphDiseases (db : DB) (category : Option String) : List Disease :=
  if strOptTruthy category then db.diseases.filter (fun d => d.category == category)
  else db.diseases

/-- Ids of the kept diseases (`disease_ids` in the source). -/
def graphDiseaseIds (db : DB) (category : Option String) : List String :=
  (graphDiseases db category).map (fun d => d.id)

/-- Associations after the category filter: restricted to the kept diseases
when the category filter is truthy. -/
def graphAssocsCat (db : DB) (category : Option String) : List Association :=
  if strOptTruthy category
  then db.associations.filter (fun a => (graphDiseaseIds db category).contains a.disease_id)
  else db.associations

/-- Associations kept by `get_graph` before the hub filter: additionally
restricted to the requested maturity when one is given (a NULL maturity
column never matches). -/
def graphAssocsPreHub (db : DB) (category maturity : Option String) : List Association :=
  match maturity with
  | some m => (graphAssocsCat db category).filter (fun a => a.maturity == some m)
  | none => graphAssocsCat db category

/-- Per-protein degree over the association set after the category/maturity
filters and before the hub filter (`protein_degrees` in the source). -/
def graphDegree (db : DB) (category maturity : Option String) (pid : String) : Nat :=
  ((graphAssocsPreHub db category maturity).filter (fun a => a.protein_id == pid)).length

/-- Associations surviving the optional hub filter (`hub_min_degree` is an
`Optional[int]`, checked with `is not None`, so 0 and negative values are
honoured). -/
def graphAssocsFinal (db : DB) (category maturity : Option String) (hubMinDegree : Option Int) :
    List Association :=
  match hubMinDegree with
  | some h => (graphAssocsPreHub db category maturity).filter
      (fun a => decide (h ≤ (graphDegree db category maturity a.protein_id : Int)))
  | none => graphAssocsPreHub db category maturity

/-- Proteins surviving: stored proteins whose id occurs in the kept
associations, further restricted by the hub filter when requested. -/
def graphProteinsFinal (db : DB) (category maturity : Option String) (hubMinDegree : Option Int) :
    List Protein :=
  let proteinIds0 := (graphAssocsPreHub db category maturity).map (fun a => a.protein_id)
  let proteins0 := db.proteins.filter (fun p => proteinIds0.contains p.id)
  match hubMinDegree with
  | some h => proteins0.filter
      (fun p => decide (h ≤ (graphDegree db category maturity p.id : Int)))
  | none => proteins0

/-- Source `get_graph` (`main.py` `/api/graph`): assemble nodes and edges
after the category, maturity and hub filters. -/
def get_graph (db : DB) (category maturity : Option String) (hubMinDegree : Option Int) :
    GraphResponse :=
  let diseases := graphDiseases db category
  let diseaseIds := diseases.map (fun d => d.id)
  let diseaseNodes := (diseases.filter (fun d => diseaseIds.contains d.id)).map
    (fun d => { id := d.id, ntype := "disease", label := d.name,
                burden := d.burden_score, degree := none, maturity := none : GraphNode })
  let proteinNodes := (graphProteinsFinal db category maturity hubMinDegree).map
    (fun p => { id := p.id, ntype := "protein", label := protein_display p,
                burden := none, degree := some (graphDegree db category maturity p.id),
                maturity := none : GraphNode })
  let edges := (graphAssocsFinal db category maturity hubMinDegree).map
    (fun a => { id := a.id, source := a.disease_id, target := a.protein_id,
                strength := a.association_strength : GraphEdge })
  { nodes := diseaseNodes ++ proteinNodes, edges := edges }

/-- Store with one association satisfying referential integrity. -/
def graphWitnessDB : DB :=
  { diseases := [{ id := "D1", name := "Disease One", category := none, burden_score := none }],
    proteins := [{ id := "P1", uniprot_id := "U1", symbol := none, name := none, family := none }],
    associations := [mkAssoc "A1" "D1" "P1"], therapies := [] }

/-- Association for the concrete opportunity-witness store. -/
def oppWitnessAssoc : Association :=
  { id := "ALZ-APP", disease_id := "ALZ", protein_id := "APP",
    association_strength := none, evidence_text := none, maturity := some "none" }

/-- Store with one association that resolves to a stored disease and protein. -/
def oppWitnessDB : DB :=
  { diseases := [{ id := "ALZ", name := "Alzheimer disease", category := none,
                   burden_score := none }],
    proteins := [{ id := "APP", uniprot_id := "P05067", symbol := some "APP",
                   name := none, family := none }],
    associations := [oppWitnessAssoc], therapies := [] }

/-- The opportunity `calculate_opportunities` returns on `oppWitnessDB`: the
strength and burden fall back to 0.3 and 0.5, so the gap score is 0.15, and
the rationale falls back to a 50% association description. -/
def oppWitnessOpp : Opportunity :=
  { disease_id := "ALZ", protein_id := "APP", gap_score := 0.15,
    rationale := "Therapeutic opportunity for APP in Alzheimer disease. Association (50%) identified between target and disease. No approved therapies currently target this protein-disease pair. Opportunity score: 15%.",
    disease_name := some "Alzheimer disease", protein_name := some "APP" }

/-- Repurposing candidate record (`find_repurposing_opportunities` emits
dicts with these fields). `current_indications` comes from a Python set whose
iteration order is unspecified; it is fixed here to first-occurrence order,
and no theorem below depends on this field's order. -/
structure RepurposingCandidate where
  therapy_id : String
  therapy_name : String
  target_protein : Option String
  current_indications : List String
  new_disease : String
  new_disease_id : String
  association_strength : Option Rat
  evidence : Option String
  repurposing_score : Rat
deriving DecidableEq

/-- The candidate `find_repurposing_opportunities` emits for the pair
`(t, a)`, if any: the therapy's target protein must resolve (first matching
row), the association must be on that protein with a non-NULL strength
`≥ min_strength`, and the association's disease must resolve (first matching
row) to a disease whose name is not among the therapy's current indications. -/
def candidateOf (db : DB) (minStrength : Rat) (t : Therapy) (a : Association) :
    Option RepurposingCandidate :=
  match db.proteins.find? (fun p => p.id == t.target_protein_id) with
  | none => none
  | some protein =>
    if a.protein_id == t.target_protein_id
        && (match a.association_strength with
            | some s => decide (minStrength ≤ s)
            | none => false) then
      match db.diseases.find? (fun d => d.id == a.disease_id) with
      | some disease =>
        let currentIndications := firstOccs (t.indications.getD [])
        if disease.name ∈ currentIndications then none
        else some {
          therapy_id := t.id, therapy_name := t.name,
          target_protein := pyOrStr protein.symbol protein.name,
          current_indications := currentIndications,
          new_disease := disease.name, new_disease_id := disease.id,
          association_strength := a.association_strength,
          evidence := a.evidence_text,
          repurposing_score := calculate_repurposing_score a.association_strength
            disease.burden_score a.maturity }
      | none => none
    else none

/-- Source `find_repurposing_opportunities` from
`scoring/repurposing_finder.py`: for each approved therapy, for each stored
association, emit the candidate (if any), then sort by score descending
(stable). -/
def find_repurposing_opportunities (db : DB) (minStrength : Rat) : List RepurposingCandidate :=
  let pre := (db.therapies.filter (fun t => t.status == "approved")).flatMap
    (fun t => db.associations.filterMap (candidateOf db minStrength t))
  sortByKeyDesc (fun c => c.repurposing_score) pre

/-- Spec-side repurposing score (claim C4's words):
`strength_or(0.5) * burden_or(0.5) * maturity_bonus * 1.2` with
`maturity_bonus = 1.5` when maturity is none/null, else `1.0`. -/
def repurposing_score_spec (strength burden : Option Rat) (maturity : Option String) : Rat :=
  pyOrRat strength 0.5 * pyOrRat burden 0.5
    * (if maturity = some "none" ∨ maturity = none then 1.5 else 1.0) * 1.2

/-- The §8 scenario therapy: approved DrugX on protein APP, indicated for ALZ. -/
def repScenarioTherapy : Therapy :=
  { id := "drugx", name := "DrugX", target_protein_id := "APP",
    status := "approved", indications := some ["ALZ"] }

/-- The §8 scenario association: PARK–APP with strength 0.6, no maturity. -/
def repScenarioAssoc : Association :=
  { id := "PARK-APP", disease_id := "PARK", protein_id := "APP",
    association_strength := some 0.6, evidence_text := none, maturity := none }

/-- Store for the spec's §8 repurposing scenario; disease PARK is present with
no burden score. -/
def repScenarioDB : DB :=
  { diseases := [{ id := "PARK", name := "PARK", category := none, burden_score := none }],
    proteins := [{ id := "APP", uniprot_id := "U-APP", symbol := some "APP",
                   name := none, family := none }],
    associations := [repScenarioAssoc],
    therapies := [repScenarioTherapy] }

/-- The candidate the §8 scenario emits: score 0.6 * 0.5 * 1.5 * 1.2 = 0.54. -/
def repScenarioCand : RepurposingCandidate :=
  { therapy_id := "drugx", therapy_name := "DrugX", target_protein := some "APP",
    current_indications := ["ALZ"], new_disease := "PARK", new_disease_id := "PARK",
    association_strength := some 0.6, evidence := none, repurposing_score := 0.54 }

/-- The §8 scenario store with the protein record removed: the pair still
qualifies in the claim's terms, but the source skips therapies whose target
protein does not resolve. -/
def repCexDB : DB :=
  { diseases := [{ id := "PARK", name := "PARK", category := none, burden_score := none }],
    proteins := [],
    associations := [{ id := "PARK-APP", disease_id := "PARK", protein_id := "APP",
                       association_strength := some 0.6, evidence_text := none,
                       maturity := none }],
    therapies := [{ id := "drugx", name := "DrugX", target_protein_id := "APP",
                    status := "approved", indications := some ["ALZ"] }] }

/-- Spec-side qualification of a `(therapy, association)` pair for a
repurposing candidate (claim C4's words, plus the resolution of the target
protein and of the disease that the source requires). -/
def qualifiesSpec (db : DB) (minStrength : Rat) (t : Therapy) (a : Association) : Prop :=
  (∃ p, p ∈ db.proteins ∧ p.id = t.target_protein_id)
  ∧ a.protein_id = t.target_protein_id
  ∧ (∃ s, a.association_strength = some s ∧ minStrength ≤ s)
  ∧ (∃ d, db.diseases.find? (fun d2 => d2.id == a.disease_id) = some d
      ∧ d.name ∉ t.indications.getD [])

/-- Values of a loosely-typed candidate record (a Python JSON-ish value).
Floats are idealized as exact rationals. -/
inductive PyValue where
  | pnull : PyValue
  | pbool (b : Bool) : PyValue
  | pnum (q : Rat) : PyValue
  | pstr (s : String) : PyValue
  | plist (l : List PyValue) : PyValue

mutual

/-- Boolean equality on `PyValue`s. -/
def PyValue.beq : PyValue → PyValue → Bool
  | .pnull, .pnull => true
  | .pbool a, .pbool b => a == b
  | .pnum a, .pnum b => a == b
  | .pstr a, .pstr b => a == b
  | .plist a, .plist b => PyValue.beqList a b
  | _, _ => false

/-- Boolean equality on lists of `PyValue`s. -/
def PyValue.beqList : List PyValue → List PyValue → Bool
  | [], [] => true
  | x :: xs, y :: ys => PyValue.beq x y && PyValue.beqList xs ys
  | _, _ => false

end

mutual

theorem PyValue.beq_iff : ∀ (a b : PyValue), PyValue.beq a b = true ↔ a = b
  | .pnull, b => by cases b <;> simp [PyValue.beq]
  | .pbool a, b => by cases b <;> simp [PyValue.beq]
  | .pnum a, b => by cases b <;> simp [PyValue.beq]
  | .pstr a, b => by cases b <;> simp [PyValue.beq]
  | .plist a, b => by
    cases b <;> simp [PyValue.beq]
    exact PyValue.beqList_iff a _

theorem PyValue.beqList_iff : ∀ (as bs : List PyValue), PyValue.beqList as bs = true ↔ as = bs
  | [], bs => by cases bs <;> simp [PyValue.beqList]
  | a :: as, [] => by simp [PyValue.beqList]
  | a :: as, b :: bs => by
    simp [PyValue.beqList, PyValue.beq_iff a b, PyValue.beqList_iff as bs]

end

instance : DecidableEq PyValue :=
  fun a b => decidable_of_iff (PyValue.beq a b = true) (PyValue.beq_iff a b)

/-- Python truthiness: `None`, `False`, `0.0`, `""` and `[]` are falsy. -/
def PyValue.truthy : PyValue → Bool
  | .pnull => false
  | .pbool b => b
  | .pnum q => q != 0
  | .pstr s => s != ""
  | .plist l => !l.isEmpty

/-- A loosely-typed candidate record: a Python dict as an association list
(field names unique in any record a Python dict can produce). -/
abbrev PyRec := List (String × PyValue)

/-- Python `record.get(key)`: value of the first (only) entry named `key`. -/
def getVal (r : PyRec) (k : String) : Option PyValue :=
  (r.find? (fun e => e.1 == k)).map Prod.snd

/-- Python `key in record`. -/
def hasKey (r : PyRec) (k : String) : Bool :=
  (r.find? (fun e => e.1 == k)).isSome

/-- Python `not record.get(key)`: the field is absent or falsy. -/
def isEmptyField (r : PyRec) (k : String) : Bool :=
  match getVal r k with
  | none => true
  | some v => !v.truthy

/-- Python `record[key] = v`: update the first entry named `key` in place, or
append the new field at the end (dict insertion order). -/
def setVal : PyRec → String → PyValue → PyRec
  | [], k, v => [(k, v)]
  | (k1, v1) :: rest, k, v =>
    if k1 = k then (k1, v) :: rest else (k1, v1) :: setVal rest k v

/-- The gap-fill loop shared by `merge_proteins` (`protein_collector.py`) and
`merge_trials` (`trial_collector.py`): copy each truthy field of the new
record into the canonical record when the canonical field is absent or falsy. -/
def gapFill (existing newRec : PyRec) : PyRec :=
  newRec.foldl
    (fun acc e => if e.2.truthy && isEmptyField acc e.1 then setVal acc e.1 e.2 else acc)
    existing

/-- Keyed canonical map update: adopt the record under a fresh key, or
gap-fill the existing canonical record under a seen key. -/
def insertOrMerge : List (PyValue × PyRec) → PyValue → PyRec → List (PyValue × PyRec)
  | [], kv, r => [(kv, r)]
  | (k1, c) :: rest, kv, r =>
    if k1 = kv then (k1, gapFill c r) :: rest else (k1, c) :: insertOrMerge rest kv r

/-- One record step of the gap-fill merge: skip records whose key field is
absent or falsy, else insert or merge under the key's value. -/
def mergeStep (keyField : String) (m : List (PyValue × PyRec)) (r : PyRec) :
    List (PyValue × PyRec) :=
  match getVal r keyField with
  | none => m
  | some kv => if kv.truthy then insertOrMerge m kv r else m

/-- The shared shape of `merge_proteins` and `merge_trials`: fold all source
lists into a canonical map keyed by the given field, then return the
canonical records in insertion order. -/
def mergeRecordsByKey (keyField : String) (lists : List (List PyRec)) : List PyRec :=
  (lists.foldl (fun m l => l.foldl (mergeStep keyField) m) []).map Prod.snd

/-- Source `merge_proteins` from `data_collection/protein_collector.py`:
deduplicate by `uniprot_id`, first writer wins, later records only fill
absent/falsy fields. -/
def merge_proteins (lists : List (List PyRec)) : List PyRec :=
  mergeRecordsByKey "uniprot_id" lists

/-- Source `merge_trials` from `data_collection/trial_collector.py`: the same
merge keyed by `nct_id`. -/
def merge_trials (lists : List (List PyRec)) : List PyRec :=
  mergeRecordsByKey "nct_id" lists

/-- Every truthy field of `r` is already non-empty in `c`; under this
condition the gap-fill loop leaves `c` unchanged. -/
def truthyFieldsCovered (c r : PyRec) : Prop :=
  ∀ e ∈ r, e.2.truthy = true → isEmptyField c e.1 = false

/-- First-occurrence lookup in the canonical key map. -/
def lookupKV (m : List (PyValue × PyRec)) (kv : PyValue) : Option PyRec :=
  (m.find? (fun e => decide (e.1 = kv))).map Prod.snd

/-- Record `r` is saturated in canonical map `m`: if its key field holds a
truthy value, the canonical record under that key covers all of `r`'s truthy
fields, so replaying `r` is a no-op. -/
def mapSat (keyField : String) (m : List (PyValue × PyRec)) (r : PyRec) : Prop :=
  ∀ kv, getVal r keyField = some kv → kv.truthy = true →
    ∃ c, lookupKV m kv = some c ∧ truthyFieldsCovered c r

/-- Concrete single-record source list exercising both merge key fields. -/
def mergeWitList : List PyRec :=
  [[("uniprot_id", PyValue.pstr "U1"), ("nct_id", PyValue.pstr "N1"),
    ("symbol", PyValue.pstr "A")]]

/-- Python `therapy.get("name", "").lower()`: lower-cased name, `""` when the
key is absent; a non-string name raises (`AttributeError`), modelled as
`none`. -/
def therapyNameKey (r : PyRec) : Option String :=
  match getVal r "name" with
  | none => some ""
  | some (.pstr s) => some s.toLower
  | some _ => none

/-- The indication-union loop of `merge_therapies`: append each new element
not already present. -/
def unionAppend (cur xs : List PyValue) : List PyValue :=
  xs.foldl (fun acc x => if x ∈ acc then acc else acc ++ [x]) cur

/-- The per-collision update of `merge_therapies`
(`data_collection/therapy_collector.py`): when the new record has an
`indications` key, ensure the canonical record has one (defaulting to `[]`)
and append the new record's indications not already present; every other
field of the canonical record is left untouched. Iterating or testing
membership on a non-list `indications` value raises in the source, modelled
as `Except.error`. -/
def mergeIndications (existing newRec : PyRec) : Except Unit PyRec :=
  if hasKey newRec "indications" then
    let ex1 := if hasKey existing "indications" then existing
               else setVal existing "indications" (.plist [])
    match getVal newRec "indications", getVal ex1 "indications" with
    | some (.plist xs), some (.plist cur) =>
      Except.ok (setVal ex1 "indications" (.plist (unionAppend cur xs)))
    | _, _ => Except.error ()
  else Except.ok existing

/-- Keyed canonical map update for `merge_therapies`: adopt fresh keys as-is,
merge indications on seen keys. -/
def insertOrMergeTherapy : List (String × PyRec) → String → PyRec →
    Except Unit (List (String × PyRec))
  | [], k, r => Except.ok [(k, r)]
  | (k1, c) :: rest, k, r =>
    if k1 = k then (mergeIndications c r).map (fun c2 => (k1, c2) :: rest)
    else (insertOrMergeTherapy rest k r).map (fun rest2 => (k1, c) :: rest2)

/-- One record step of `merge_therapies`: skip records whose lower-cased name
is empty. -/
def mergeTherapyStep (m : List (String × PyRec)) (r : PyRec) :
    Except Unit (List (String × PyRec)) :=
  match therapyNameKey r with
  | none => Except.error ()
  | some name => if name = "" then Except.ok m else insertOrMergeTherapy m name r

/-- Source `merge_therapies` from `data_collection/therapy_collector.py`:
deduplicate by lower-cased name; on collision only the indications lists are
merged (set-union), no other field is copied. -/
def merge_therapies (lists : List (List PyRec)) : Except Unit (List PyRec) :=
  (lists.foldlM (fun (m : List (String × PyRec)) (l : List PyRec) =>
    l.foldlM mergeTherapyStep m) []).map (List.map Prod.snd)

/-- First record of the therapy-merge counterexample: canonical record with
an empty (falsy) `drugbank_id`. -/
def therCexRec1 : PyRec := [("name", PyValue.pstr "drugx"), ("drugbank_id", PyValue.pstr "")]

/-- Second record of the therapy-merge counterexample: same case-insensitive
name, a present (truthy) `drugbank_id`, and one indication. -/
def therCexRec2 : PyRec :=
  [("name", PyValue.pstr "DrugX"), ("drugbank_id", PyValue.pstr "DB1"),
   ("indications", PyValue.plist [PyValue.pstr "ALZ"])]

/-- Canonical record after merging the two counterexample records: the
indications are unioned but `drugbank_id` stays empty. -/
def therCexMerged : PyRec :=
  [("name", PyValue.pstr "drugx"), ("drugbank_id", PyValue.pstr ""),
   ("indications", PyValue.plist [PyValue.pstr "ALZ"])]

/-- Numeric value of a digit string. -/
def digitsToNat (cs : List Char) : Nat :=
  cs.foldl (fun n c => n * 10 + (c.toNat - 48)) 0

/-- Exponent part of a Python float literal, after the `e`/`E`. -/
def parseExpPart (cs : List Char) : Option Int :=
  let signAndRest : Int × List Char :=
    match cs with
    | '+' :: rest => (1, rest)
    | '-' :: rest => (-1, rest)
    | _ => (1, cs)
  let ds := signAndRest.2.takeWhile Char.isDigit
  let rest := signAndRest.2.dropWhile Char.isDigit
  if ds.isEmpty || !rest.isEmpty then none
  else some (signAndRest.1 * (digitsToNat ds : Int))

/-- Python `float(s)` on a string: optional surrounding whitespace, optional
sign, digits with an optional fractional part, optional exponent; anything
else raises (`none` here). The `inf`/`nan` spellings and digit-group
underscores are outside the exact-rational idealization and also map to
`none`; no theorem below exercises them. -/
def parseFloatStr (s : String) : Option Rat :=
  let cs := ((s.toList.dropWhile Char.isWhitespace).reverse.dropWhile
    Char.isWhitespace).reverse
  let signAndRest : Int × List Char :=
    match cs with
    | '+' :: rest => (1, rest)
    | '-' :: rest => (-1, rest)
    | _ => (1, cs)
  let ip := signAndRest.2.takeWhile Char.isDigit
  let cs2 := signAndRest.2.dropWhile Char.isDigit
  let fracAndRest : List Char × List Char :=
    match cs2 with
    | '.' :: rest => (rest.takeWhile Char.isDigit, rest.dropWhile Char.isDigit)
    | _ => ([], cs2)
  let fp := fracAndRest.1
  if ip.isEmpty && fp.isEmpty then none
  else
    let mantissa : Rat :=
      (signAndRest.1 : Rat) * ((digitsToNat ip : Rat) + (digitsToNat fp : Rat) / (10 : Rat) ^ fp.length)
    match fracAndRest.2 with
    | [] => some mantissa
    | 'e' :: rest => (parseExpPart rest).map (fun ex => mantissa * (10 : Rat) ^ ex)
    | 'E' :: rest => (parseExpPart rest).map (fun ex => mantissa * (10 : Rat) ^ ex)
    | _ => none

/-- Python `float(value)`: numbers pass through, booleans coerce, strings are
parsed; `None`, lists and unparsable strings raise. -/
def pyFloat : PyValue → Except Unit Rat
  | .pnum q => .ok q
  | .pbool b => .ok (if b then 1 else 0)
  | .pstr s =>
    match parseFloatStr s with
    | some q => .ok q
    | none => .error ()
  | .pnull => .error ()
  | .plist _ => .error ()

/-- Python `str(value)`, for the values an id field can hold. Floats are
idealized as rationals (integral ones print exactly); list elements print by
`str` rather than `repr` — an approximation documented here and not exercised
by any theorem below. -/
def pyStr : PyValue → String
  | .pstr s => s
  | .pnum q => if q.den = 1 then toString q.num else toString q
  | .pbool b => if b then "True" else "False"
  | .pnull => "None"
  | .plist l => "[" ++ String.intercalate ", " (l.attach.map (fun x => pyStr x.1)) ++ "]"
termination_by v => sizeOf v
decreasing_by
  have := List.sizeOf_lt_of_mem x.2
  simp only [PyValue.plist.sizeOf_spec]
  omega

/-- Python `set.add`: sets are modelled as insertion-ordered duplicate-free
lists (only membership and size are observed by the source). -/
def addSeen (seen : List PyValue) (v : PyValue) : List PyValue :=
  if v ∈ seen then seen else seen ++ [v]

/-- Python truthiness of a `record.get(key)` result. -/
def truthyOptVal (o : Option PyValue) : Bool :=
  match o with
  | none => false
  | some v => v.truthy

/-- One iteration of the loop of `validate_disease_data`
(`data_collection/disease_collector.py`): skip records without truthy `id`
and `name`; disambiguate colliding ids with a `_{len(seen_ids)}` suffix;
default a missing/`None` `burden_score` to `0.5`, else coerce with `float`
(which can raise) and clamp to `[0, 1]`; default a falsy `category` to
`"Other"`. -/
def validate_disease_step (st : List PyRec × List PyValue) (disease : PyRec) :
    Except Unit (List PyRec × List PyValue) :=
  if !truthyOptVal (getVal disease "id") || !truthyOptVal (getVal disease "name") then
    Except.ok st
  else
    let id0 := (getVal disease "id").getD .pnull
    let renamed : PyValue × PyRec :=
      if id0 ∈ st.2 then
        let newId := PyValue.pstr (pyStr id0 ++ "_" ++ toString st.2.length)
        (newId, setVal disease "id" newId)
      else (id0, disease)
    let seen2 := addSeen st.2 renamed.1
    let burdened : Except Unit PyRec :=
      match getVal renamed.2 "burden_score" with
      | none => Except.ok (setVal renamed.2 "burden_score" (.pnum 0.5))
      | some .pnull => Except.ok (setVal renamed.2 "burden_score" (.pnum 0.5))
      | some v => (pyFloat v).map (fun q => setVal renamed.2 "burden_score" (.pnum (max 0 (min 1 q))))
    burdened.map (fun d2 =>
      let d3 := if !truthyOptVal (getVal d2 "category") then setVal d2 "category" (.pstr "Other") else d2
      (st.1 ++ [d3], seen2))

/-- Source `validate_disease_data` from `data_collection/disease_collector.py`. -/
def validate_disease_data (diseases : List PyRec) : Except Unit (List PyRec) :=
  (diseases.foldlM validate_disease_step ([], [])).map Prod.fst

/-- Association count of protein `k` (claim C5's "per-protein association
count"). -/
def proteinAssocCount (db : DB) (k : String) : Nat :=
  (db.associations.filter (fun a => a.protein_id == k)).length

/-- Store with two proteins of equal association count whose first-seen order
(P2 before P1) disagrees with ascending protein-id order. -/
def hubCexDB : DB :=
  { diseases := [], proteins := [],
    associations := [mkAssoc "D1-P2" "D1" "P2", mkAssoc "D2-P1" "D2" "P1"],
    therapies := [] }

/-- Store for the spec's §8 hub scenario: P1 associated with D1, D2, D3 and
P2 with D1 only. -/
def hubScenarioDB : DB :=
  { diseases := [], proteins := [],
    associations := [mkAssoc "D1-P1" "D1" "P1", mkAssoc "D2-P1" "D2" "P1",
                     mkAssoc "D3-P1" "D3" "P1", mkAssoc "D1-P2" "D1" "P2"],
    therapies := [] }

instance : DecidableRel hubClaimOrder := fun x y => by
  unfold hubClaimOrder
  infer_instance

/-- Ordering asserted by claim C6 for the cluster list: strictly larger shared
count first, ties broken by `(disease1_id, disease2_id)` lexicographically
ascending. -/
def clusterClaimOrder (x y : Cluster) : Prop :=
  y.shared_count < x.shared_count
  ∨ (x.shared_count = y.shared_count
     ∧ (x.disease1_id < y.disease1_id
        ∨ (x.disease1_id = y.disease1_id ∧ x.disease2_id < y.disease2_id)))

/-- Store whose diseases first occur in the order C, B, A, all sharing the
one protein P: the pair loop emits (C,B), (C,A), (B,A), which is not
ascending in `(disease1_id, disease2_id)`. -/
def clusterCexDB : DB :=
  { diseases := [], proteins := [],
    associations := [mkAssoc "C-P" "C" "P", mkAssoc "B-P" "B" "P", mkAssoc "A-P" "A" "P"],
    therapies := [] }

theorem sortByKeyDesc_of_sorted {α β : Type} [LinearOrder β] {key : α → β} {l : List α}
    (h : l.Pairwise (fun x y => key y ≤ key x)) : sortByKeyDesc key l = l :=
  List.mergeSort_of_sorted (h.imp (fun hab => decide_eq_true hab))

theorem mem_foldl_firstOccs {κ : Type} [DecidableEq κ] (l : List κ) (acc : List κ) (a : κ) :
    a ∈ l.foldl (fun acc k => if k ∈ acc then acc else acc ++ [k]) acc ↔ a ∈ acc ∨ a ∈ l := by
  induction l generalizing acc with
  | nil => simp
  | cons x xs ih =>
    rw [List.foldl_cons]
    by_cases hx : x ∈ acc
    · rw [if_pos hx, ih]
      constructor
      · rintro (h | h)
        · exact Or.inl h
        · exact Or.inr (List.mem_cons_of_mem _ h)
      · rintro (h | h)
        · exact Or.inl h
        · rcases List.mem_cons.mp h with rfl | h2
          · exact Or.inl hx
          · exact Or.inr h2
    · rw [if_neg hx, ih]
      simp only [List.mem_append, List.mem_singleton, List.mem_cons]
      tauto

theorem mem_firstOccs {κ : Type} [DecidableEq κ] {l : List κ} {a : κ} :
    a ∈ firstOccs l ↔ a ∈ l := by
  rw [firstOccs, mem_foldl_firstOccs]
  simp

theorem nodup_foldl_firstOccs {κ : Type} [DecidableEq κ] (l : List κ) (acc : List κ)
    (h : acc.Nodup) :
    (l.foldl (fun acc k => if k ∈ acc then acc else acc ++ [k]) acc).Nodup := by
  induction l generalizing acc with
  | nil => simpa using h
  | cons x xs ih =>
    rw [List.foldl_cons]
    by_cases hx : x ∈ acc
    · simpa [hx] using ih acc h
    · refine (if_neg hx) ▸ ih (acc ++ [x]) ?_
      simp [List.nodup_append, h, hx]

theorem firstOccs_nodup {κ : Type} [DecidableEq κ] (l : List κ) : (firstOccs l).Nodup :=
  nodup_foldl_firstOccs l [] List.nodup_nil

theorem firstOccs_concat {κ : Type} [DecidableEq κ] (p : List κ) (x : κ) :
    firstOccs (p ++ [x]) =
      if x ∈ firstOccs p then firstOccs p else firstOccs p ++ [x] := by
  simp [firstOccs, List.foldl_append]

theorem countKey_concat {κ : Type} [DecidableEq κ] (p : List κ) (x k : κ) :
    countKey (p ++ [x]) k = if x = k then countKey p k + 1 else countKey p k := by
  by_cases h : x = k <;> simp [countKey, List.filter_append, h]

theorem countKey_eq_zero {κ : Type} [DecidableEq κ] {p : List κ} {k : κ} (h : k ∉ p) :
    countKey p k = 0 := by
  rw [countKey, List.length_eq_zero, List.filter_eq_nil_iff]
  intro a ha
  simp only [beq_iff_eq]
  exact fun hak => h (hak ▸ ha)

theorem updEntry_map_of_not_mem {κ ν : Type} [DecidableEq κ] {ks : List κ} (g : κ → ν)
    (k : κ) (f : ν → ν) (v0 : ν) (h : k ∉ ks) :
    updEntry (ks.map (fun x => (x, g x))) k f v0 = ks.map (fun x => (x, g x)) ++ [(k, v0)] := by
  induction ks with
  | nil => simp [updEntry]
  | cons k1 rest ih =>
    have hk1 : k1 ≠ k := fun he => h (he ▸ List.mem_cons_self k1 rest)
    simp only [List.map_cons, updEntry, if_neg hk1, List.cons_append, List.cons.injEq, true_and]
    exact ih (fun hm => h (List.mem_cons_of_mem _ hm))

theorem updEntry_map_of_mem {κ ν : Type} [DecidableEq κ] {ks : List κ} (g : κ → ν)
    (k : κ) (f : ν → ν) (v0 : ν) (h : k ∈ ks) (hnd : ks.Nodup) :
    updEntry (ks.map (fun x => (x, g x))) k f v0
      = ks.map (fun x => (x, if x = k then f (g x) else g x)) := by
  induction ks with
  | nil => simp at h
  | cons k1 rest ih =>
    rcases List.nodup_cons.mp hnd with ⟨hk1, hrest⟩
    by_cases he : k1 = k
    · subst he
      rw [List.map_cons, List.map_cons]
      simp only [updEntry, if_pos rfl]
      simp only [List.cons.injEq, eq_self_iff_true, if_true, true_and]
      refine (List.map_congr_left ?_).symm
      intro x hx
      have hxk : x ≠ k1 := fun hxe => hk1 (hxe ▸ hx)
      simp [hxk]
    · have hk : k ∈ rest := by
        rcases List.mem_cons.mp h with h1 | h1
        · exact absurd h1.symm he
        · exact h1
      rw [List.map_cons, List.map_cons]
      simp only [updEntry]
      rw [if_neg he]
      refine List.cons_eq_cons.mpr ⟨?_, ih hk hrest⟩
      simp [if_neg he]

theorem tally_rep_aux {κ : Type} [DecidableEq κ] (l p : List κ) :
    List.foldl (fun m k => updEntry m k (fun c => c + 1) 1)
        ((firstOccs p).map (fun k => (k, countKey p k))) l
      = (firstOccs (p ++ l)).map (fun k => (k, countKey (p ++ l) k)) := by
  induction l generalizing p with
  | nil => simp
  | cons x l ih =>
    rw [List.foldl_cons]
    have hstep : updEntry ((firstOccs p).map (fun k => (k, countKey p k))) x (fun c => c + 1) 1
        = (firstOccs (p ++ [x])).map (fun k => (k, countKey (p ++ [x]) k)) := by
      by_cases hx : x ∈ firstOccs p
      · rw [updEntry_map_of_mem _ _ _ _ hx (firstOccs_nodup p), firstOccs_concat, if_pos hx]
        refine List.map_congr_left ?_
        intro k hk
        rw [countKey_concat]
        by_cases hkx : k = x
        · simp [hkx]
        · have hxk : ¬ (x = k) := fun hxe => hkx hxe.symm
          simp [hkx, hxk]
      · rw [updEntry_map_of_not_mem _ _ _ _ hx, firstOccs_concat, if_neg hx, List.map_append]
        have hxp : x ∉ p := fun h => hx (mem_firstOccs.mpr h)
        congr 1
        · refine List.map_congr_left ?_
          intro k hk
          have : x ≠ k := fun he => hx (he ▸ hk)
          rw [countKey_concat, if_neg this]
        · simp [countKey_concat, countKey_eq_zero hxp]
    rw [hstep, ih (p ++ [x])]
    have hax : p ++ [x] ++ l = p ++ x :: l := by simp
    rw [hax]

theorem tally_rep {κ : Type} [DecidableEq κ] (l : List κ) :
    tally l = (firstOccs l).map (fun k => (k, countKey l k)) := by
  have h := tally_rep_aux l []
  simpa [firstOccs, tally] using h

theorem mem_tally {κ : Type} [DecidableEq κ] {l : List κ} {pc : κ × Nat} :
    pc ∈ tally l ↔ pc.1 ∈ l ∧ pc.2 = countKey l pc.1 := by
  rw [tally_rep]
  constructor
  · intro h
    rcases List.mem_map.mp h with ⟨k, hk, he⟩
    rcases he
    exact ⟨mem_firstOccs.mp hk, rfl⟩
  · rintro ⟨h1, h2⟩
    exact List.mem_map.mpr ⟨pc.1, mem_firstOccs.mpr h1, by rw [← h2]⟩

theorem tally_nodup_keys {κ : Type} [DecidableEq κ] (l : List κ) :
    ((tally l).map Prod.fst).Nodup := by
  rw [tally_rep, List.map_map]
  have h : (Prod.fst ∘ fun k : κ => (k, countKey l k)) = id := rfl
  rw [h, List.map_id]
  exact firstOccs_nodup l

theorem countKey_map {α κ : Type} [DecidableEq κ] (f : α → κ) (l : List α) (k : κ) :
    countKey (l.map f) k = (l.filter (fun a => f a == k)).length := by
  rw [countKey, List.filter_map, List.length_map]
  rfl

theorem sortByKeyDesc_perm {α β : Type} [LinearOrder β] (key : α → β) (l : List α) :
    List.Perm (sortByKeyDesc key l) l :=
  List.mergeSort_perm l _

theorem sortByKeyDesc_pairwise {α β : Type} [LinearOrder β] (key : α → β) (l : List α) :
    (sortByKeyDesc key l).Pairwise (fun x y => key y ≤ key x) := by
  have h := @List.sorted_mergeSort α (fun x y : α => decide (key y ≤ key x))
    (fun a b c h1 h2 => by
      simp only [decide_eq_true_eq] at *
      exact le_trans h2 h1)
    (fun a b => by
      simp only [Bool.or_eq_true, decide_eq_true_eq]
      exact le_total (key b) (key a)) l
  exact h.imp (fun hab => of_decide_eq_true hab)

theorem filter_sortByKeyDesc {α β : Type} [LinearOrder β] (key : α → β) (l : List α)
    (p : α → Bool) (hp : ∀ a b, p a = true → p b = true → key b ≤ key a) :
    (sortByKeyDesc key l).filter p = l.filter p := by
  have hsub : List.Sublist (l.filter p) (sortByKeyDesc key l) := by
    apply List.sublist_mergeSort
      (fun a b c h1 h2 => by
        simp only [decide_eq_true_eq] at *
        exact le_trans h2 h1)
      (fun a b => by
        simp only [Bool.or_eq_true, decide_eq_true_eq]
        exact le_total (key b) (key a))
    · have hmem : ∀ a ∈ l.filter p, p a = true := fun a ha => (List.mem_filter.mp ha).2
      have hpl : (l.filter p).Pairwise (fun a b => key b ≤ key a) :=
        List.pairwise_iff_forall_sublist.mpr
          (fun {a b} hs => hp a b (hmem a (hs.subset (by simp))) (hmem b (hs.subset (by simp))))
      exact hpl.imp (fun h => decide_eq_true h)
    · exact l.filter_sublist
  have hlen : ((sortByKeyDesc key l).filter p).length = (l.filter p).length :=
    ((sortByKeyDesc_perm key l).filter p).length_eq
  have hsub2 : List.Sublist ((l.filter p).filter p) ((sortByKeyDesc key l).filter p) := hsub.filter p
  rw [List.filter_filter] at hsub2
  simp only [Bool.and_self] at hsub2
  exact (hsub2.eq_of_length hlen.symm).symm

/-- A prefix of a list filters to a prefix of the filtered list. -/
theorem filter_take_isPrefix {α : Type} (p : α → Bool) (l : List α) (n : Nat) :
    List.IsPrefix ((l.take n).filter p) (l.filter p) := by
  refine ⟨(l.drop n).filter p, ?_⟩
  rw [← List.filter_append, List.take_append_drop]

theorem opportunityFor_eq_some {db : DB} {a : Association} {o : Opportunity}
    (h : opportunityFor db a = some o) :
    (a.maturity = some "none" ∨ a.maturity = some "trial" ∨ a.maturity = none)
    ∧ o.disease_id = a.disease_id ∧ o.protein_id = a.protein_id
    ∧ (∃ d, d ∈ db.diseases ∧ d.id = a.disease_id)
    ∧ (∃ p, p ∈ db.proteins ∧ p.id = a.protein_id) := by
  unfold opportunityFor at h
  split at h
  case isFalse => exact absurd h (by simp)
  case isTrue hmat =>
  cases hd : db.diseases.find? (fun d => d.id == a.disease_id) with
  | none => rw [hd] at h; exact absurd h (by cases db.proteins.find? (fun p => p.id == a.protein_id) <;> simp)
  | some disease =>
    cases hp : db.proteins.find? (fun p => p.id == a.protein_id) with
    | none => rw [hd, hp] at h; exact absurd h (by simp)
    | some protein =>
      rw [hd, hp] at h
      simp only [Option.some.injEq] at h
      refine ⟨hmat, ?_, ?_, ?_, ?_⟩
      · rw [← h]
      · rw [← h]
      · exact ⟨disease, List.mem_of_find?_eq_some hd, by simpa using List.find?_some hd⟩
      · exact ⟨protein, List.mem_of_find?_eq_some hp, by simpa using List.find?_some hp⟩

/-- C3: `calculate_opportunities` returns at most `limit` opportunities, each
built from an association whose maturity is none/trial/null and whose disease
and protein ids resolve to stored records; the result is sorted non-increasing
by `gap_score`, and within each tied `gap_score` value the order is the stable
association iteration order (the result's tie class is a prefix of the
pre-sort tie class). -/
theorem calculate_opportunities_spec (db : DB) (limit : Nat) :
    (calculate_opportunities db limit).length ≤ limit
    ∧ (calculate_opportunities db limit).Pairwise (fun x y => y.gap_score ≤ x.gap_score)
    ∧ (∀ o ∈ calculate_opportunities db limit, ∃ a, a ∈ db.associations
        ∧ (a.maturity = some "none" ∨ a.maturity = some "trial" ∨ a.maturity = none)
        ∧ o.disease_id = a.disease_id ∧ o.protein_id = a.protein_id
        ∧ (∃ d, d ∈ db.diseases ∧ d.id = a.disease_id)
        ∧ (∃ p, p ∈ db.proteins ∧ p.id = a.protein_id))
    ∧ (∀ g : Rat, List.IsPrefix
        ((calculate_opportunities db limit).filter (fun o => decide (o.gap_score = g)))
        ((db.associations.filterMap (opportunityFor db)).filter (fun o => decide (o.gap_score = g)))) := by
  refine ⟨?_, ?_, ?_, ?_⟩
  · simp [calculate_opportunities]
  · exact ((sortByKeyDesc_pairwise (fun o : Opportunity => o.gap_score) _).sublist
      (List.take_sublist _ _))
  · intro o ho
    have ho2 : o ∈ db.associations.filterMap (opportunityFor db) := by
      have := (List.take_sublist limit (sortByKeyDesc (fun o : Opportunity => o.gap_score)
        (db.associations.filterMap (opportunityFor db)))).subset ho
      exact ((sortByKeyDesc_perm _ _).mem_iff).mp this
    obtain ⟨a, ha, hfa⟩ := List.mem_filterMap.mp ho2
    obtain ⟨h1, h2, h3, h4, h5⟩ := opportunityFor_eq_some hfa
    exact ⟨a, ha, h1, h2, h3, h4, h5⟩
  · intro g
    have hstable := filter_sortByKeyDesc (fun o : Opportunity => o.gap_score)
      (db.associations.filterMap (opportunityFor db)) (fun o => decide (o.gap_score = g))
      (fun a b ha hb => by
        simp only [decide_eq_true_eq] at ha hb
        simp only [ha, hb, le_refl])
    have hpre := filter_take_isPrefix (fun o => decide (o.gap_score = g))
      (sortByKeyDesc (fun o : Opportunity => o.gap_score)
        (db.associations.filterMap (opportunityFor db))) limit
    rw [hstable] at hpre
    simpa [calculate_opportunities] using hpre

/-- C2: `calculate_gap_score` equals `clamp01(strength, 0.3) * clamp01(burden, 0.5) * m`
with the claimed maturity multiplier, and the two concrete scenarios evaluate
to 0.72 and 0.072. -/
theorem gap_score_matches_spec :
    (∀ s b m, calculate_gap_score s b m = clamp01_spec s 0.3 * clamp01_spec b 0.5 * maturity_mult_spec m)
    ∧ calculate_gap_score (some 0.8) (some 0.9) (some "none") = 0.72
    ∧ calculate_gap_score (some 0.8) (some 0.9) (some "approved") = 0.072 := by
  refine ⟨fun s b m => ?_, by norm_num [calculate_gap_score, normalize], by norm_num [calculate_gap_score, normalize]; simp⟩
  have hs : normalize s 0 1 0.3 = clamp01_spec s 0.3 := by
    cases s <;> simp [normalize, clamp01_spec]
  have hb : normalize b 0 1 0.5 = clamp01_spec b 0.5 := by
    cases b <;> simp [normalize, clamp01_spec]
  have hm : (if m = some "none" ∨ m = none then (1.0 : Rat)
      else if m = some "trial" then 0.5
      else if m = some "approved" then 0.1
      else 0.8) = maturity_mult_spec m := by
    cases m with
    | none => simp [maturity_mult_spec]
    | some v =>
      by_cases h1 : v = "none" <;> by_cases h2 : v = "trial" <;>
        by_cases h3 : v = "approved" <;> simp_all [maturity_mult_spec]
  simp only [calculate_gap_score, hs, hb, hm]

/-- C10: `calculate_repurposing_score` treats a present `0.0` strength (or
burden) exactly like a missing one, scoring it with the `0.5` fallback, and
`generate_rationale` likewise describes a `0.0` strength (or burden) with the
`0.5` fallback text. -/
theorem zero_strength_scored_as_half :
    (∀ b m, calculate_repurposing_score (some 0) b m = calculate_repurposing_score (some 0.5) b m)
    ∧ (∀ s m, calculate_repurposing_score s (some 0) m = calculate_repurposing_score s (some 0.5) m)
    ∧ (∀ dn pn b m g, generate_rationale dn pn (some 0) b m g = generate_rationale dn pn (some 0.5) b m g)
    ∧ (∀ dn pn s m g, generate_rationale dn pn s (some 0) m g = generate_rationale dn pn s (some 0.5) m g) := by
  refine ⟨fun b m => ?_, fun s m => ?_, fun dn pn b m g => ?_, fun dn pn s m g => ?_⟩ <;>
    norm_num [calculate_repurposing_score, generate_rationale, pyOrRat]

/-- C5 counterexample: with two proteins tied at count 1 but first seen in the
order P2, P1, `identify_protein_hubs` returns them in first-seen order, not in
ascending protein-id order as the claim states — Python's stable sort keeps
insertion order on ties. -/
theorem hubs_tie_order_counterexample :
    identify_protein_hubs hubCexDB 1 = [("P2", 1), ("P1", 1)]
    ∧ ¬ (identify_protein_hubs hubCexDB 1).Pairwise hubClaimOrder := by
  have h1 : identify_protein_hubs hubCexDB 1 = [("P2", 1), ("P1", 1)] := by
    show sortByKeyDesc (fun pc => pc.2)
      ((hubCexDB.associations.foldl (fun m a => updEntry m a.protein_id (fun c => c + 1) 1)
        []).filter (fun pc => decide (1 ≤ pc.2))) = _
    have hpre : (hubCexDB.associations.foldl
        (fun m a => updEntry m a.protein_id (fun c => c + 1) 1) []).filter
          (fun pc => decide (1 ≤ pc.2)) = [("P2", 1), ("P1", 1)] := by rfl
    rw [hpre]
    exact sortByKeyDesc_of_sorted (by decide)
  refine ⟨h1, ?_⟩
  rw [h1]
  intro hpw
  have h2 := (List.pairwise_cons.mp hpw).1 ("P1", 1) (List.mem_singleton.mpr rfl)
  rcases h2 with h2 | h2
  · exact absurd h2 (by omega)
  · refine absurd h2.2 (by simp; decide)

/-- C5 (amended): `identify_protein_hubs` returns exactly the
`(protein_id, count)` pairs with per-protein association count `≥
min_diseases`, each protein at most once, sorted descending by count — with
ties kept in the order the proteins first occur in the association list (the
stable-sort order), not in ascending protein-id order; the §8 scenario
(P1 with 3 associations, P2 with 1, threshold 2) returns only P1. -/
theorem identify_protein_hubs_spec (db : DB) (minD : Nat) :
    (identify_protein_hubs db minD).Pairwise (fun x y => y.2 ≤ x.2)
    ∧ (∀ pc : String × Nat, pc ∈ identify_protein_hubs db minD ↔
        ((∃ a, a ∈ db.associations ∧ a.protein_id = pc.1)
         ∧ pc.2 = proteinAssocCount db pc.1 ∧ minD ≤ pc.2))
    ∧ ((identify_protein_hubs db minD).map Prod.fst).Nodup
    ∧ (∀ c : Nat, ((identify_protein_hubs db minD).filter (fun pc => pc.2 == c)).map Prod.fst
        = (firstOccs (db.associations.map (fun a => a.protein_id))).filter
            (fun k => decide (minD ≤ proteinAssocCount db k) && proteinAssocCount db k == c))
    ∧ identify_protein_hubs hubScenarioDB 2 = [("P1", 3)] := by
  have hdef : identify_protein_hubs db minD
      = sortByKeyDesc (fun pc : String × Nat => pc.2)
          ((tally (db.associations.map (fun a => a.protein_id))).filter
            (fun pc => decide (minD ≤ pc.2))) := by
    simp [identify_protein_hubs, tally, List.foldl_map]
  have hcount : ∀ k, countKey (db.associations.map (fun a => a.protein_id)) k
      = proteinAssocCount db k := by
    intro k
    rw [countKey_map]
    rfl
  refine ⟨?_, ?_, ?_, ?_, ?_⟩
  · rw [hdef]
    exact sortByKeyDesc_pairwise _ _
  · intro pc
    rw [hdef, (sortByKeyDesc_perm _ _).mem_iff, List.mem_filter, mem_tally, hcount,
      decide_eq_true_eq, List.mem_map]
    tauto
  · rw [hdef]
    rw [((sortByKeyDesc_perm _ _).map Prod.fst).nodup_iff]
    exact ((List.filter_sublist _).map Prod.fst).nodup (tally_nodup_keys _)
  · intro c
    rw [hdef, filter_sortByKeyDesc _ _ _ (fun a b ha hb => by
      simp only [beq_iff_eq] at ha hb
      omega)]
    rw [List.filter_filter, tally_rep, List.filter_map, List.map_map]
    have hfun : ((fun pc : String × Nat => pc.2 == c && decide (minD ≤ pc.2))
        ∘ fun k => (k, countKey (db.associations.map (fun a => a.protein_id)) k))
        = fun k => decide (minD ≤ proteinAssocCount db k) && proteinAssocCount db k == c := by
      funext k
      simp [hcount k, Bool.and_comm]
    have hid : (Prod.fst ∘ fun k : String =>
        (k, countKey (db.associations.map (fun a => a.protein_id)) k)) = id := rfl
    rw [hfun, hid, List.map_id]
  · show sortByKeyDesc (fun pc => pc.2)
      ((hubScenarioDB.associations.foldl (fun m a => updEntry m a.protein_id (fun c => c + 1) 1)
        []).filter (fun pc => decide (2 ≤ pc.2))) = _
    have hpre : (hubScenarioDB.associations.foldl
        (fun m a => updEntry m a.protein_id (fun c => c + 1) 1) []).filter
          (fun pc => decide (2 ≤ pc.2)) = [("P1", 3)] := by rfl
    rw [hpre]
    exact sortByKeyDesc_of_sorted (by decide)

theorem assocProteins_concat (p : List Association) (x : Association) (k : String) :
    assocProteins (p ++ [x]) k
      = if x.disease_id = k then assocProteins p k ++ [x.protein_id] else assocProteins p k := by
  by_cases h : x.disease_id = k <;> simp [assocProteins, List.filter_append, h]

theorem assocProteins_eq_nil {p : List Association} {k : String}
    (h : k ∉ p.map (fun a => a.disease_id)) : assocProteins p k = [] := by
  rw [assocProteins, List.map_eq_nil_iff, List.filter_eq_nil_iff]
  intro a ha
  simp only [beq_iff_eq]
  exact fun hd => h (List.mem_map.mpr ⟨a, ha, hd⟩)

theorem firstOccs_singleton {κ : Type} [DecidableEq κ] (x : κ) : firstOccs [x] = [x] := by
  simp [firstOccs]

theorem diseaseProteins_rep_aux (l p : List Association) :
    List.foldl (fun m a => updEntry m a.disease_id
        (fun s => if a.protein_id ∈ s then s else s ++ [a.protein_id]) [a.protein_id])
      ((firstOccs (p.map (fun a => a.disease_id))).map
        (fun d => (d, firstOccs (assocProteins p d)))) l
    = (firstOccs ((p ++ l).map (fun a => a.disease_id))).map
        (fun d => (d, firstOccs (assocProteins (p ++ l) d))) := by
  induction l generalizing p with
  | nil => simp
  | cons x l ih =>
    rw [List.foldl_cons]
    have hstep : updEntry
        ((firstOccs (p.map (fun a => a.disease_id))).map
          (fun d => (d, firstOccs (assocProteins p d))))
        x.disease_id (fun s => if x.protein_id ∈ s then s else s ++ [x.protein_id])
        [x.protein_id]
        = (firstOccs ((p ++ [x]).map (fun a => a.disease_id))).map
            (fun d => (d, firstOccs (assocProteins (p ++ [x]) d))) := by
      have hmapx : (p ++ [x]).map (fun a => a.disease_id)
          = p.map (fun a => a.disease_id) ++ [x.disease_id] := by simp
      by_cases hd : x.disease_id ∈ firstOccs (p.map (fun a => a.disease_id))
      · rw [updEntry_map_of_mem _ _ _ _ hd (firstOccs_nodup _), hmapx, firstOccs_concat,
          if_pos hd]
        refine List.map_congr_left ?_
        intro k hk
        by_cases hkx : k = x.disease_id
        · subst hkx
          rw [if_pos rfl, assocProteins_concat, if_pos rfl, firstOccs_concat]
        · rw [if_neg hkx, assocProteins_concat, if_neg (fun he => hkx he.symm)]
      · rw [updEntry_map_of_not_mem _ _ _ _ hd, hmapx, firstOccs_concat, if_neg hd,
          List.map_append]
        have hdp : x.disease_id ∉ p.map (fun a => a.disease_id) :=
          fun h => hd (mem_firstOccs.mpr h)
        congr 1
        · refine List.map_congr_left ?_
          intro k hk
          have hkx : x.disease_id ≠ k := fun he => hd (he ▸ hk)
          rw [assocProteins_concat, if_neg hkx]
        · rw [List.map_singleton, assocProteins_concat, if_pos rfl,
            assocProteins_eq_nil hdp, List.nil_append, firstOccs_singleton]
    rw [hstep, ih (p ++ [x])]
    have hax : p ++ [x] ++ l = p ++ x :: l := by simp
    rw [hax]

theorem diseaseProteins_rep (l : List Association) :
    diseaseProteins l = (firstOccs (l.map (fun a => a.disease_id))).map
      (fun d => (d, firstOccs (assocProteins l d))) := by
  have h := diseaseProteins_rep_aux l []
  simpa [diseaseProteins, firstOccs] using h

theorem upperPairs_map {κ μ : Type} (g : κ → μ) (l : List κ) :
    upperPairs (l.map g) = (upperPairs l).map (fun pr => (g pr.1, g pr.2)) := by
  induction l with
  | nil => rfl
  | cons x xs ih => simp [upperPairs, ih, List.map_map]

theorem mem_upperPairs {κ : Type} {l : List κ} {pr : κ × κ} (h : pr ∈ upperPairs l) :
    pr.1 ∈ l ∧ pr.2 ∈ l := by
  induction l with
  | nil => simp [upperPairs] at h
  | cons x xs ih =>
    rw [upperPairs, List.mem_append] at h
    rcases h with h | h
    · rcases List.mem_map.mp h with ⟨y, hy, he⟩
      rcases he
      exact ⟨List.mem_cons_self _ _, List.mem_cons_of_mem _ hy⟩
    · rcases ih h with ⟨h1, h2⟩
      exact ⟨List.mem_cons_of_mem _ h1, List.mem_cons_of_mem _ h2⟩

theorem upperPairs_fst_ne_snd {κ : Type} {l : List κ} (h : l.Nodup) :
    ∀ pr ∈ upperPairs l, pr.1 ≠ pr.2 := by
  induction l with
  | nil => simp [upperPairs]
  | cons x xs ih =>
    rcases List.nodup_cons.mp h with ⟨hx, hxs⟩
    intro pr hpr
    rw [upperPairs, List.mem_append] at hpr
    rcases hpr with hpr | hpr
    · rcases List.mem_map.mp hpr with ⟨y, hy, he⟩
      rcases he
      intro he2
      exact hx (by rw [show x = y from he2]; exact hy)
    · exact ih hxs pr hpr

theorem mem_upperPairs_of_nodup {κ : Type} [DecidableEq κ] {l : List κ} {a b : κ}
    (hnd : l.Nodup) (ha : a ∈ l) (hb : b ∈ l) (hab : a ≠ b) :
    (a, b) ∈ upperPairs l ∨ (b, a) ∈ upperPairs l := by
  induction l with
  | nil => simp at ha
  | cons x xs ih =>
    rcases List.nodup_cons.mp hnd with ⟨hx, hxs⟩
    rcases List.mem_cons.mp ha with rfl | ha2
    · have hbxs : b ∈ xs := by
        rcases List.mem_cons.mp hb with rfl | h2
        · exact absurd rfl hab
        · exact h2
      exact Or.inl (by
        rw [upperPairs, List.mem_append]
        exact Or.inl (List.mem_map.mpr ⟨b, hbxs, rfl⟩))
    · rcases List.mem_cons.mp hb with rfl | hb2
      · exact Or.inr (by
          rw [upperPairs, List.mem_append]
          exact Or.inl (List.mem_map.mpr ⟨a, ha2, rfl⟩))
      · rcases ih hxs ha2 hb2 with h | h
        · exact Or.inl (by rw [upperPairs, List.mem_append]; exact Or.inr h)
        · exact Or.inr (by rw [upperPairs, List.mem_append]; exact Or.inr h)

theorem pairwise_upperPairs_ne {κ : Type} {l : List κ} (h : l.Nodup) :
    (upperPairs l).Pairwise
      (fun p q => ¬((p.1 = q.1 ∧ p.2 = q.2) ∨ (p.1 = q.2 ∧ p.2 = q.1))) := by
  induction l with
  | nil => simp [upperPairs]
  | cons x xs ih =>
    rcases List.nodup_cons.mp h with ⟨hx, hxs⟩
    rw [upperPairs]
    refine List.pairwise_append.mpr ⟨?_, ih hxs, ?_⟩
    · rw [List.pairwise_map]
      refine List.pairwise_iff_forall_sublist.mpr ?_
      intro a b hs
      have hmem_b : b ∈ xs := hs.subset (by simp)
      have hab : a ≠ b := by
        have hnd2 := hxs.sublist hs
        simp only [List.nodup_cons, List.mem_singleton, List.nodup_nil, and_true] at hnd2
        exact hnd2.1
      rintro (⟨-, h2⟩ | ⟨h1, -⟩)
      · exact hab (show a = b from h2)
      · exact hx (by rw [show x = b from h1]; exact hmem_b)
    · intro p hp q hq
      rcases List.mem_map.mp hp with ⟨y, hy, he⟩
      rcases he
      rcases mem_upperPairs hq with ⟨h1, h2⟩
      rintro (⟨he1, -⟩ | ⟨he1, -⟩)
      · exact hx (by rw [show x = q.1 from he1]; exact h1)
      · exact hx (by rw [show x = q.2 from he1]; exact h2)

theorem filterMap_if_eq {α β : Type} (g : α → Bool) (h : α → β) (l : List α) :
    l.filterMap (fun x => if g x then some (h x) else none) = (l.filter g).map h := by
  induction l with
  | nil => rfl
  | cons x xs ih =>
    by_cases hg : g x <;> simp [hg, ih]

theorem sharedCountSpec_symm (assocs : List Association) (d e : String) :
    sharedCountSpec assocs d e = sharedCountSpec assocs e d := by
  have hmem : ∀ x, x ∈ (firstOccs (assocProteins assocs d)).filter
      (fun p => decide (p ∈ assocProteins assocs e))
      ↔ x ∈ (firstOccs (assocProteins assocs e)).filter
      (fun p => decide (p ∈ assocProteins assocs d)) := by
    intro x
    simp only [List.mem_filter, mem_firstOccs, decide_eq_true_eq]
    tauto
  have h1 : ((firstOccs (assocProteins assocs d)).filter
      (fun p => decide (p ∈ assocProteins assocs e))).Nodup :=
    (firstOccs_nodup _).filter _
  have h2 : ((firstOccs (assocProteins assocs e)).filter
      (fun p => decide (p ∈ assocProteins assocs d))).Nodup :=
    (firstOccs_nodup _).filter _
  have hp : List.Perm ((firstOccs (assocProteins assocs d)).filter
      (fun p => decide (p ∈ assocProteins assocs e)))
      ((firstOccs (assocProteins assocs e)).filter
      (fun p => decide (p ∈ assocProteins assocs d))) :=
    (h1.subperm (fun x hx => (hmem x).mp hx)).antisymm
      (h2.subperm (fun x hx => (hmem x).mpr hx))
  exact hp.length_eq

theorem filterMap_congr_fn {α β : Type} {f g : α → Option β} (l : List α)
    (h : ∀ a ∈ l, f a = g a) : l.filterMap f = l.filterMap g := by
  induction l with
  | nil => rfl
  | cons x xs ih =>
    rw [List.filterMap_cons, List.filterMap_cons, h x (List.mem_cons_self x xs),
      ih (fun a ha => h a (List.mem_cons_of_mem _ ha))]

theorem sameDiseasePair_symm {r1 r2 : Cluster} (h : sameDiseasePair r1 r2) :
    sameDiseasePair r2 r1 := by
  rcases h with ⟨h1, h2⟩ | ⟨h1, h2⟩
  · exact Or.inl ⟨h1.symm, h2.symm⟩
  · exact Or.inr ⟨h2.symm, h1.symm⟩

theorem find_disease_clusters_eq (db : DB) (minS : Nat) :
    find_disease_clusters db minS = sortByKeyDesc (fun c => c.shared_count)
      (((upperPairs (firstOccs (db.associations.map (fun a => a.disease_id)))).filter
          (fun pr => decide (minS ≤ sharedCountSpec db.associations pr.1 pr.2))).map
        (fun pr => { disease1_id := pr.1, disease2_id := pr.2,
                     shared_proteins := (firstOccs (assocProteins db.associations pr.1)).filter
                       (fun p => decide (p ∈ assocProteins db.associations pr.2)),
                     shared_count := sharedCountSpec db.associations pr.1 pr.2 })) := by
  simp only [find_disease_clusters]
  rw [diseaseProteins_rep, upperPairs_map, List.filterMap_map]
  congr 1
  rw [← filterMap_if_eq]
  refine filterMap_congr_fn _ ?_
  intro pr hpr
  have hsh : (firstOccs (assocProteins db.associations pr.1)).filter
      (fun p => (firstOccs (assocProteins db.associations pr.2)).contains p)
      = (firstOccs (assocProteins db.associations pr.1)).filter
      (fun p => decide (p ∈ assocProteins db.associations pr.2)) := by
    refine List.filter_congr ?_
    intro p hp
    have hm : p ∈ firstOccs (assocProteins db.associations pr.2)
        ↔ p ∈ assocProteins db.associations pr.2 := mem_firstOccs
    simp [hm]
  simp only [Function.comp_apply, hsh]
  rw [show sharedCountSpec db.associations pr.1 pr.2
      = ((firstOccs (assocProteins db.associations pr.1)).filter
          (fun p => decide (p ∈ assocProteins db.associations pr.2))).length from rfl]
  simp

/-- C6 (amended): `find_disease_clusters` emits at most one record per
unordered disease pair, a record's shared count is the number of distinct
proteins associated with both its diseases and is `≥ min_shared_proteins`, a
record exists for a disease pair (both occurring in the associations) exactly
when their shared-protein count reaches the threshold, and the result is
sorted descending by shared count — with ties kept in pair-generation order,
not `(disease1_id, disease2_id)` ascending: the final conjunct states that
each equal-count tie class is exactly the qualifying pairs in the order the
nested loop generates them (upper pairs of the diseases' first-occurrence
order), mapped to their cluster records. -/
theorem find_disease_clusters_spec (db : DB) (minS : Nat) :
    (find_disease_clusters db minS).Pairwise (fun x y => y.shared_count ≤ x.shared_count)
    ∧ (find_disease_clusters db minS).Pairwise (fun r1 r2 => ¬ sameDiseasePair r1 r2)
    ∧ (∀ r ∈ find_disease_clusters db minS,
        r.disease1_id ≠ r.disease2_id
        ∧ r.shared_count = sharedCountSpec db.associations r.disease1_id r.disease2_id
        ∧ minS ≤ r.shared_count
        ∧ (∃ a, a ∈ db.associations ∧ a.disease_id = r.disease1_id)
        ∧ (∃ a, a ∈ db.associations ∧ a.disease_id = r.disease2_id))
    ∧ (∀ d e : String, d ≠ e →
        (∃ a, a ∈ db.associations ∧ a.disease_id = d) →
        (∃ a, a ∈ db.associations ∧ a.disease_id = e) →
        ((∃ r, r ∈ find_disease_clusters db minS
            ∧ ((r.disease1_id = d ∧ r.disease2_id = e)
               ∨ (r.disease1_id = e ∧ r.disease2_id = d)))
          ↔ minS ≤ sharedCountSpec db.associations d e))
    ∧ (∀ c : Nat, (find_disease_clusters db minS).filter (fun r => r.shared_count == c)
        = ((upperPairs (firstOccs (db.associations.map (fun a => a.disease_id)))).filter
            (fun pr => decide (minS ≤ sharedCountSpec db.associations pr.1 pr.2)
              && sharedCountSpec db.associations pr.1 pr.2 == c)).map
          (fun pr => Cluster.mk pr.1 pr.2
            ((firstOccs (assocProteins db.associations pr.1)).filter
              (fun p => decide (p ∈ assocProteins db.associations pr.2)))
            (sharedCountSpec db.associations pr.1 pr.2))) := by
  have hkeys : (firstOccs (db.associations.map (fun a => a.disease_id))).Nodup :=
    firstOccs_nodup _
  refine ⟨?_, ?_, ?_, ?_, ?_⟩
  · rw [find_disease_clusters_eq]
    exact sortByKeyDesc_pairwise _ _
  · rw [find_disease_clusters_eq]
    rw [(sortByKeyDesc_perm _ _).pairwise_iff
      (fun h hs => h (sameDiseasePair_symm hs))]
    rw [List.pairwise_map]
    refine List.Pairwise.imp ?_ ((pairwise_upperPairs_ne hkeys).filter _)
    intro pr qr hne hsame
    exact hne hsame
  · intro r hr
    rw [find_disease_clusters_eq, (sortByKeyDesc_perm _ _).mem_iff] at hr
    rcases List.mem_map.mp hr with ⟨pr, hpr, he⟩
    rcases List.mem_filter.mp hpr with ⟨hprm, hguard⟩
    rcases he
    refine ⟨upperPairs_fst_ne_snd hkeys pr hprm, rfl, of_decide_eq_true hguard, ?_, ?_⟩
    · rcases mem_upperPairs hprm with ⟨h1, -⟩
      rcases List.mem_map.mp (mem_firstOccs.mp h1) with ⟨a, ha, hd⟩
      exact ⟨a, ha, hd⟩
    · rcases mem_upperPairs hprm with ⟨-, h2⟩
      rcases List.mem_map.mp (mem_firstOccs.mp h2) with ⟨a, ha, hd⟩
      exact ⟨a, ha, hd⟩
  · intro d e hne hd he
    constructor
    · rintro ⟨r, hr, hor⟩
      rw [find_disease_clusters_eq, (sortByKeyDesc_perm _ _).mem_iff] at hr
      rcases List.mem_map.mp hr with ⟨pr, hpr, heq⟩
      rcases List.mem_filter.mp hpr with ⟨-, hguard⟩
      rcases heq
      rcases hor with ⟨h1, h2⟩ | ⟨h1, h2⟩
      · rw [← h1, ← h2]
        exact of_decide_eq_true hguard
      · rw [← h1, ← h2, sharedCountSpec_symm]
        exact of_decide_eq_true hguard
    · intro hcount
      have hdk : d ∈ firstOccs (db.associations.map (fun a => a.disease_id)) := by
        rcases hd with ⟨a, ha, hda⟩
        exact mem_firstOccs.mpr (List.mem_map.mpr ⟨a, ha, hda⟩)
      have hek : e ∈ firstOccs (db.associations.map (fun a => a.disease_id)) := by
        rcases he with ⟨a, ha, hda⟩
        exact mem_firstOccs.mpr (List.mem_map.mpr ⟨a, ha, hda⟩)
      rcases mem_upperPairs_of_nodup hkeys hdk hek hne with hm | hm
      · refine ⟨Cluster.mk d e
            ((firstOccs (assocProteins db.associations d)).filter
              (fun p => decide (p ∈ assocProteins db.associations e)))
            (sharedCountSpec db.associations d e),
          ?_, Or.inl ⟨rfl, rfl⟩⟩
        rw [find_disease_clusters_eq, (sortByKeyDesc_perm _ _).mem_iff]
        exact List.mem_map.mpr ⟨(d, e),
          List.mem_filter.mpr ⟨hm, decide_eq_true hcount⟩, rfl⟩
      · refine ⟨Cluster.mk e d
            ((firstOccs (assocProteins db.associations e)).filter
              (fun p => decide (p ∈ assocProteins db.associations d)))
            (sharedCountSpec db.associations e d),
          ?_, Or.inr ⟨rfl, rfl⟩⟩
        rw [find_disease_clusters_eq, (sortByKeyDesc_perm _ _).mem_iff]
        refine List.mem_map.mpr ⟨(e, d), List.mem_filter.mpr ⟨hm, ?_⟩, rfl⟩
        rw [sharedCountSpec_symm] at hcount
        exact decide_eq_true hcount
  · intro c
    rw [find_disease_clusters_eq, filter_sortByKeyDesc _ _ _ (fun a b ha hb => by
      simp only [beq_iff_eq] at ha hb
      omega)]
    rw [List.filter_map, List.filter_filter]
    rw [List.filter_congr (fun pr hpr => ?_)]
    simp [Bool.and_comm]

/-- C6 counterexample: with diseases first seen in the order C, B, A all
sharing one protein, the tied cluster records come out in pair-generation
order (C,B), (C,A), (B,A) — not ascending in `(disease1_id, disease2_id)` as
the claim states. -/
theorem clusters_tie_order_counterexample :
    find_disease_clusters clusterCexDB 1
      = [{ disease1_id := "C", disease2_id := "B", shared_proteins := ["P"], shared_count := 1 },
         { disease1_id := "C", disease2_id := "A", shared_proteins := ["P"], shared_count := 1 },
         { disease1_id := "B", disease2_id := "A", shared_proteins := ["P"], shared_count := 1 }]
    ∧ ¬ (find_disease_clusters clusterCexDB 1).Pairwise clusterClaimOrder := by
  have h1 : find_disease_clusters clusterCexDB 1
      = [{ disease1_id := "C", disease2_id := "B", shared_proteins := ["P"], shared_count := 1 },
         { disease1_id := "C", disease2_id := "A", shared_proteins := ["P"], shared_count := 1 },
         { disease1_id := "B", disease2_id := "A", shared_proteins := ["P"], shared_count := 1 }] := by
    rw [find_disease_clusters_eq]
    have hpre : ((upperPairs (firstOccs (clusterCexDB.associations.map
          (fun a => a.disease_id)))).filter
        (fun pr => decide (1 ≤ sharedCountSpec clusterCexDB.associations pr.1 pr.2))).map
        (fun pr => { disease1_id := pr.1, disease2_id := pr.2,
                     shared_proteins := (firstOccs (assocProteins clusterCexDB.associations
                       pr.1)).filter
                       (fun p => decide (p ∈ assocProteins clusterCexDB.associations pr.2)),
                     shared_count := sharedCountSpec clusterCexDB.associations pr.1 pr.2
                     : Cluster })
        = [{ disease1_id := "C", disease2_id := "B", shared_proteins := ["P"], shared_count := 1 },
           { disease1_id := "C", disease2_id := "A", shared_proteins := ["P"], shared_count := 1 },
           { disease1_id := "B", disease2_id := "A", shared_proteins := ["P"], shared_count := 1 }] := by
      rfl
    rw [hpre]
    exact sortByKeyDesc_of_sorted (by decide)
  refine ⟨h1, ?_⟩
  rw [h1]
  intro hpw
  have h2 := (List.pairwise_cons.mp hpw).1 _ (List.mem_cons_self _ _)
  rcases h2 with h2 | ⟨-, h3 | ⟨-, h4⟩⟩
  · simp at h2
  · exact absurd h3 (lt_irrefl _)
  · exact absurd h4 (by simp; decide)

/-- Witness for the amended C6 theorem at a concrete store: diseases B and C
both occur and share one protein, so a cluster record for the unordered pair
{B, C} is emitted. -/
theorem find_disease_clusters_spec_witness :
    ∃ r, r ∈ find_disease_clusters clusterCexDB 1
      ∧ ((r.disease1_id = "B" ∧ r.disease2_id = "C")
         ∨ (r.disease1_id = "C" ∧ r.disease2_id = "B")) :=
  ((find_disease_clusters_spec clusterCexDB 1).2.2.2.1 "B" "C" (by decide)
    ⟨mkAssoc "B-P" "B" "P", by decide, rfl⟩
    ⟨mkAssoc "C-P" "C" "P", by decide, rfl⟩).mpr (by decide)

theorem graphAssocsFinal_subset (db : DB) (category maturity : Option String)
    (hub : Option Int) :
    ∀ a ∈ graphAssocsFinal db category maturity hub, a ∈ graphAssocsPreHub db category maturity := by
  intro a ha
  cases hub with
  | none => exact ha
  | some h => exact (List.mem_filter.mp ha).1

theorem mem_graphAssocsCat {db : DB} {category : Option String} {a : Association}
    (ha : a ∈ graphAssocsPreHub db category maturity) : a ∈ graphAssocsCat db category := by
  cases maturity with
  | none => exact ha
  | some m => exact (List.mem_filter.mp ha).1

theorem graphAssocsPreHub_subset (db : DB) (category maturity : Option String) :
    ∀ a ∈ graphAssocsPreHub db category maturity, a ∈ db.associations := by
  intro a ha
  have ha2 := mem_graphAssocsCat ha
  rw [graphAssocsCat] at ha2
  by_cases ht : strOptTruthy category
  · rw [if_pos ht] at ha2
    exact (List.mem_filter.mp ha2).1
  · rw [if_neg ht] at ha2
    exact ha2

theorem preHub_disease_resolves {db : DB} {category maturity : Option String} {a : Association}
    (ht : strOptTruthy category = true) (ha : a ∈ graphAssocsPreHub db category maturity) :
    ∃ d, d ∈ graphDiseases db category ∧ d.id = a.disease_id := by
  have ha2 := mem_graphAssocsCat ha
  rw [graphAssocsCat, if_pos ht] at ha2
  have hcont := (List.mem_filter.mp ha2).2
  rw [graphDiseaseIds] at hcont
  rcases List.mem_map.mp (by simpa using hcont) with ⟨d, hd, hdi⟩
  exact ⟨d, hd, hdi⟩

theorem preHub_protein_id_mem {db : DB} {category maturity : Option String} {a : Association}
    (ha : a ∈ graphAssocsPreHub db category maturity) :
    ((graphAssocsPreHub db category maturity).map (fun a2 => a2.protein_id)).contains
      a.protein_id = true := by
  have hm : a.protein_id ∈ (graphAssocsPreHub db category maturity).map
      (fun a2 => a2.protein_id) := List.mem_map.mpr ⟨a, ha, rfl⟩
  simpa using hm

/-- C1 (amended): when every stored association's `disease_id` and
`protein_id` resolve to stored disease and protein records (referential
integrity), `/api/graph` emits no dangling edge: for every combination of the
category, maturity and hub filters, both endpoints of every emitted edge are
node ids. Without that integrity assumption the guarantee fails (see the
counterexample). -/
theorem get_graph_no_dangling (db : DB) (category maturity : Option String) (hub : Option Int)
    (hre : ∀ a ∈ db.associations,
      (∃ d, d ∈ db.diseases ∧ d.id = a.disease_id)
      ∧ (∃ p, p ∈ db.proteins ∧ p.id = a.protein_id)) :
    ∀ e ∈ (get_graph db category maturity hub).edges,
      (∃ n, n ∈ (get_graph db category maturity hub).nodes ∧ n.id = e.source)
      ∧ (∃ n, n ∈ (get_graph db category maturity hub).nodes ∧ n.id = e.target) := by
  intro e he
  have hedges : (get_graph db category maturity hub).edges
      = (graphAssocsFinal db category maturity hub).map (fun a =>
          { id := a.id, source := a.disease_id, target := a.protein_id,
            strength := a.association_strength : GraphEdge }) := rfl
  rw [hedges] at he
  rcases List.mem_map.mp he with ⟨a, ha, hea⟩
  rcases hea
  have haPre : a ∈ graphAssocsPreHub db category maturity :=
    graphAssocsFinal_subset db category maturity hub a ha
  have haDB : a ∈ db.associations := graphAssocsPreHub_subset db category maturity a haPre
  have hnodes : (get_graph db category maturity hub).nodes
      = ((graphDiseases db category).filter (fun d =>
          ((graphDiseases db category).map (fun d2 => d2.id)).contains d.id)).map
          (fun d => { id := d.id, ntype := "disease", label := d.name,
                      burden := d.burden_score, degree := none, maturity := none : GraphNode })
        ++ (graphProteinsFinal db category maturity hub).map
          (fun p => { id := p.id, ntype := "protein", label := protein_display p,
                      burden := none, degree := some (graphDegree db category maturity p.id),
                      maturity := none : GraphNode }) := rfl
  constructor
  · obtain ⟨d, hd, hdid⟩ : ∃ d, d ∈ graphDiseases db category ∧ d.id = a.disease_id := by
      by_cases ht : strOptTruthy category = true
      · exact preHub_disease_resolves ht haPre
      · have hall : graphDiseases db category = db.diseases := by
          rw [graphDiseases, if_neg (fun hc => ht hc)]
        rcases (hre a haDB).1 with ⟨d, hd, hdi⟩
        exact ⟨d, hall ▸ hd, hdi⟩
    refine ⟨{ id := d.id, ntype := "disease", label := d.name,
              burden := d.burden_score, degree := none, maturity := none : GraphNode },
      ?_, hdid⟩
    rw [hnodes]
    refine List.mem_append_left _ (List.mem_map.mpr ⟨d, List.mem_filter.mpr ⟨hd, ?_⟩, rfl⟩)
    have hm : d.id ∈ (graphDiseases db category).map (fun d2 => d2.id) :=
      List.mem_map.mpr ⟨d, hd, rfl⟩
    simpa using hm
  · rcases (hre a haDB).2 with ⟨p, hp, hpi⟩
    have hp0 : p ∈ db.proteins.filter (fun p2 =>
        ((graphAssocsPreHub db category maturity).map (fun a2 => a2.protein_id)).contains
          p2.id) := by
      refine List.mem_filter.mpr ⟨hp, ?_⟩
      rw [hpi]
      exact preHub_protein_id_mem haPre
    have hpf : p ∈ graphProteinsFinal db category maturity hub := by
      cases hub with
      | none => exact hp0
      | some h =>
        refine List.mem_filter.mpr ⟨hp0, ?_⟩
        have hdeg := (List.mem_filter.mp ha).2
        simp only [decide_eq_true_eq] at hdeg ⊢
        rw [hpi]
        exact hdeg
    refine ⟨{ id := p.id, ntype := "protein", label := protein_display p,
              burden := none, degree := some (graphDegree db category maturity p.id),
              maturity := none : GraphNode }, ?_, hpi⟩
    rw [hnodes]
    exact List.mem_append_right _ (List.mem_map.mpr ⟨p, hpf, rfl⟩)

/-- Store with one association whose disease and protein are absent from the
stored entity sets. -/
def graphCexDB : DB :=
  { diseases := [], proteins := [],
    associations := [mkAssoc "A1" "D1" "P1"], therapies := [] }

/-- C1 counterexample: an association referencing a disease and protein absent
from the stored entity sets yields an edge with an empty node set — a dangling
edge, contradicting the claim's "no dangling edges, even when an association
references a disease or protein absent from the stored entity sets". -/
theorem graph_dangling_counterexample :
    (get_graph graphCexDB none none none).nodes = []
    ∧ (get_graph graphCexDB none none none).edges
        = [{ id := "A1", source := "D1", target := "P1", strength := none }]
    ∧ ¬ (∀ e ∈ (get_graph graphCexDB none none none).edges,
        (∃ n, n ∈ (get_graph graphCexDB none none none).nodes ∧ n.id = e.source)
        ∧ (∃ n, n ∈ (get_graph graphCexDB none none none).nodes ∧ n.id = e.target)) := by
  refine ⟨rfl, rfl, ?_⟩
  intro h
  have hmem : ({ id := "A1", source := "D1", target := "P1", strength := none } : GraphEdge)
      ∈ (get_graph graphCexDB none none none).edges := by
    rw [show (get_graph graphCexDB none none none).edges
      = [{ id := "A1", source := "D1", target := "P1", strength := none }] from rfl]
    exact List.mem_singleton.mpr rfl
  rcases (h _ hmem).1 with ⟨n, hn, -⟩
  have : (get_graph graphCexDB none none none).nodes = [] := rfl
  rw [this] at hn
  exact (List.not_mem_nil n) hn

/-- Witness for the amended C1 theorem: a store satisfying referential
integrity, on which the single emitted edge has both of its endpoints among
the nodes. -/
theorem get_graph_no_dangling_witness :
    (∃ n, n ∈ (get_graph graphWitnessDB none none none).nodes ∧ n.id = "D1")
    ∧ (∃ n, n ∈ (get_graph graphWitnessDB none none none).nodes ∧ n.id = "P1") :=
  get_graph_no_dangling graphWitnessDB none none none (by
    intro a ha
    rcases List.mem_singleton.mp ha with rfl
    exact ⟨⟨{ id := "D1", name := "Disease One", category := none, burden_score := none },
      List.mem_singleton.mpr rfl, rfl⟩,
      ⟨{ id := "P1", uniprot_id := "U1", symbol := none, name := none, family := none },
      List.mem_singleton.mpr rfl, rfl⟩⟩)
    { id := "A1", source := "D1", target := "P1", strength := none }
    (by
      rw [show (get_graph graphWitnessDB none none none).edges
        = [{ id := "A1", source := "D1", target := "P1", strength := none }] from rfl]
      exact List.mem_singleton.mpr rfl)

theorem repScenario_candidateOf_eq :
    candidateOf repScenarioDB (0.4 : Rat) repScenarioTherapy repScenarioAssoc
      = some repScenarioCand := by
  have hcond : ((repScenarioAssoc.protein_id == repScenarioTherapy.target_protein_id)
      && match repScenarioAssoc.association_strength with
         | some s => decide ((0.4 : Rat) ≤ s)
         | none => false) = true := by
    rw [Bool.and_eq_true]
    refine ⟨rfl, ?_⟩
    show decide ((0.4 : Rat) ≤ 0.6) = true
    exact decide_eq_true (by norm_num)
  unfold candidateOf
  rw [show repScenarioDB.proteins.find?
      (fun p => p.id == repScenarioTherapy.target_protein_id)
      = some { id := "APP", uniprot_id := "U-APP", symbol := some "APP",
               name := none, family := none } from rfl]
  dsimp only
  rw [if_pos hcond]
  rw [show repScenarioDB.diseases.find? (fun d => d.id == repScenarioAssoc.disease_id)
      = some { id := "PARK", name := "PARK", category := none, burden_score := none }
      from rfl]
  dsimp only
  rw [if_neg (by simp [repScenarioTherapy, firstOccs])]
  norm_num [repScenarioCand, repScenarioTherapy, repScenarioAssoc, firstOccs,
    pyOrStr, calculate_repurposing_score, pyOrRat]
  intro h
  exact absurd h (by decide)

theorem calculate_repurposing_score_eq_spec :
    ∀ s b m, calculate_repurposing_score s b m = repurposing_score_spec s b m :=
  fun _ _ _ => rfl

theorem candidateOf_isSome_iff (db : DB) (minS : Rat) (t : Therapy) (a : Association) :
    (candidateOf db minS t a).isSome = true ↔ qualifiesSpec db minS t a := by
  unfold candidateOf qualifiesSpec
  cases hfp : db.proteins.find? (fun p => p.id == t.target_protein_id) with
  | none =>
    simp only [Option.isSome_none, Bool.false_eq_true, false_iff]
    rintro ⟨⟨p, hp, hpi⟩, -, -, -⟩
    have hnone := List.find?_eq_none.mp hfp p hp
    simp [hpi] at hnone
  | some protein =>
    dsimp only
    have hpmem : protein ∈ db.proteins := List.mem_of_find?_eq_some hfp
    have hpid : protein.id = t.target_protein_id := by
      have := List.find?_some hfp
      simpa using this
    by_cases hcond : (a.protein_id == t.target_protein_id
        && match a.association_strength with
           | some s => decide (minS ≤ s)
           | none => false) = true
    · rw [if_pos hcond]
      rw [Bool.and_eq_true] at hcond
      rcases hcond with ⟨hc1, hc2⟩
      have hpid2 : a.protein_id = t.target_protein_id := by simpa using hc1
      have hstr : ∃ s, a.association_strength = some s ∧ minS ≤ s := by
        cases hs : a.association_strength with
        | none => rw [hs] at hc2; exact absurd hc2 (by simp)
        | some s =>
          rw [hs] at hc2
          exact ⟨s, rfl, of_decide_eq_true hc2⟩
      cases hfd : db.diseases.find? (fun d2 => d2.id == a.disease_id) with
      | none =>
        simp only [Option.isSome_none, Bool.false_eq_true, false_iff]
        rintro ⟨-, -, -, ⟨d, hd, -⟩⟩
        exact absurd hd (by simp)
      | some disease =>
        dsimp only
        by_cases hind : disease.name ∈ firstOccs (t.indications.getD [])
        · rw [if_pos hind]
          simp only [Option.isSome_none, Bool.false_eq_true, false_iff]
          rintro ⟨-, -, -, ⟨d, hd, hdn⟩⟩
          obtain rfl := Option.some.inj hd
          exact hdn (mem_firstOccs.mp hind)
        · rw [if_neg hind]
          simp only [Option.isSome_some, true_iff]
          refine ⟨⟨protein, hpmem, hpid⟩, hpid2, hstr, disease, rfl, ?_⟩
          exact fun hmem => hind (mem_firstOccs.mpr hmem)
    · rw [if_neg hcond]
      simp only [Option.isSome_none, Bool.false_eq_true, false_iff]
      rintro ⟨-, h2, ⟨s, hs, hss⟩, -⟩
      refine hcond ?_
      rw [Bool.and_eq_true]
      refine ⟨by simpa using h2, ?_⟩
      rw [hs]
      exact decide_eq_true hss

theorem candidateOf_fields {db : DB} {minS : Rat} {t : Therapy} {a : Association}
    {c : RepurposingCandidate} (h : candidateOf db minS t a = some c) :
    ∃ d, db.diseases.find? (fun d2 => d2.id == a.disease_id) = some d
      ∧ c.new_disease_id = d.id ∧ c.new_disease = d.name
      ∧ c.therapy_id = t.id
      ∧ c.association_strength = a.association_strength
      ∧ c.repurposing_score
          = repurposing_score_spec a.association_strength d.burden_score a.maturity := by
  unfold candidateOf at h
  cases hfp : db.proteins.find? (fun p => p.id == t.target_protein_id) with
  | none => rw [hfp] at h; exact absurd h (by simp)
  | some protein =>
    rw [hfp] at h
    dsimp only at h
    by_cases hcond : (a.protein_id == t.target_protein_id
        && match a.association_strength with
           | some s => decide (minS ≤ s)
           | none => false) = true
    · rw [if_pos hcond] at h
      cases hfd : db.diseases.find? (fun d2 => d2.id == a.disease_id) with
      | none => rw [hfd] at h; exact absurd h (by simp)
      | some disease =>
        rw [hfd] at h
        dsimp only at h
        by_cases hind : disease.name ∈ firstOccs (t.indications.getD [])
        · rw [if_pos hind] at h
          exact absurd h (by simp)
        · rw [if_neg hind] at h
          obtain rfl := Option.some.inj h
          exact ⟨disease, rfl, rfl, rfl, rfl, rfl, rfl⟩
    · rw [if_neg hcond] at h
      exact absurd h (by simp)

/-- C4 (amended): `find_repurposing_opportunities` is, up to the final stable
sort by descending score, exactly one candidate per (approved therapy,
association) pair that qualifies — where qualification additionally requires
(as the source does) that the therapy's target protein and the association's
disease resolve to stored records; each candidate's score is
`strength_or(0.5) * burden_or(0.5) * maturity_bonus * 1.2` with bonus 1.5 for
none/null maturity; the §8 scenario yields exactly one candidate with score
0.54. -/
theorem find_repurposing_spec (db : DB) (minS : Rat) :
    (find_repurposing_opportunities db minS).Pairwise
      (fun x y => y.repurposing_score ≤ x.repurposing_score)
    ∧ List.Perm (find_repurposing_opportunities db minS)
        ((db.therapies.filter (fun t => t.status == "approved")).flatMap
          (fun t => db.associations.filterMap (candidateOf db minS t)))
    ∧ (∀ t a, (candidateOf db minS t a).isSome = true ↔ qualifiesSpec db minS t a)
    ∧ (∀ t a c, candidateOf db minS t a = some c →
        ∃ d, db.diseases.find? (fun d2 => d2.id == a.disease_id) = some d
          ∧ c.new_disease_id = d.id ∧ c.new_disease = d.name
          ∧ c.repurposing_score
              = repurposing_score_spec a.association_strength d.burden_score a.maturity)
    ∧ find_repurposing_opportunities repScenarioDB 0.4 = [repScenarioCand] := by
  refine ⟨?_, ?_, ?_, ?_, ?_⟩
  · exact sortByKeyDesc_pairwise _ _
  · exact sortByKeyDesc_perm _ _
  · exact candidateOf_isSome_iff db minS
  · intro t a c h
    rcases candidateOf_fields h with ⟨d, h1, h2, h3, -, -, h6⟩
    exact ⟨d, h1, h2, h3, h6⟩
  · have hc := repScenario_candidateOf_eq
    have hpre : (repScenarioDB.therapies.filter (fun t => t.status == "approved")).flatMap
        (fun t => repScenarioDB.associations.filterMap (candidateOf repScenarioDB 0.4 t))
        = [repScenarioCand] := by
      rw [show repScenarioDB.therapies.filter (fun t => t.status == "approved")
          = [repScenarioTherapy] from rfl]
      rw [show repScenarioDB.associations = [repScenarioAssoc] from rfl]
      simp [hc]
    show sortByKeyDesc (fun c => c.repurposing_score)
      ((repScenarioDB.therapies.filter (fun t => t.status == "approved")).flatMap
        (fun t => repScenarioDB.associations.filterMap (candidateOf repScenarioDB 0.4 t))) = _
    rw [hpre]
    exact sortByKeyDesc_of_sorted (List.pairwise_singleton _ _)

/-- C4 counterexample: in the §8 scenario with the protein record for APP
absent from the stored protein set, the claimed qualifying pair still exists
(approved therapy, association on its target protein with strength ≥ 0.4,
disease resolving to PARK which is not among the indications), yet
`find_repurposing_opportunities` emits no candidate at all — the source skips
therapies whose target protein does not resolve. -/
theorem repurposing_missing_protein_counterexample :
    find_repurposing_opportunities repCexDB 0.4 = []
    ∧ (∃ t, t ∈ repCexDB.therapies ∧ t.status = "approved"
        ∧ (∃ a, a ∈ repCexDB.associations ∧ a.protein_id = t.target_protein_id
            ∧ (∃ s, a.association_strength = some s ∧ (0.4 : Rat) ≤ s)
            ∧ (∃ d, d ∈ repCexDB.diseases ∧ d.id = a.disease_id
                ∧ d.name ∉ t.indications.getD []))) := by
  constructor
  · show sortByKeyDesc (fun c => c.repurposing_score)
      ((repCexDB.therapies.filter (fun t => t.status == "approved")).flatMap
        (fun t => repCexDB.associations.filterMap (candidateOf repCexDB 0.4 t))) = _
    have hpre : (repCexDB.therapies.filter (fun t => t.status == "approved")).flatMap
        (fun t => repCexDB.associations.filterMap (candidateOf repCexDB 0.4 t)) = [] := by
      norm_num [repCexDB, candidateOf, List.find?]
    rw [hpre]
    simp [sortByKeyDesc]
  · refine ⟨Therapy.mk "drugx" "DrugX" "APP" "approved" (some ["ALZ"]), ?_, rfl,
      Association.mk "PARK-APP" "PARK" "APP" (some 0.6) none none, ?_, rfl,
      ⟨0.6, rfl, by norm_num⟩,
      Disease.mk "PARK" "PARK" none none, ?_, rfl, ?_⟩
    · simp [repCexDB]
    · simp [repCexDB]
    · simp [repCexDB]
    · intro hmem
      simp at hmem

/-- Witness for the amended C4 theorem: at the §8 scenario store, the
candidate built for (DrugX, PARK–APP) resolves disease PARK and carries the
claimed score formula. -/
theorem find_repurposing_spec_witness :
    ∃ d, repScenarioDB.diseases.find? (fun d2 => d2.id == repScenarioAssoc.disease_id) = some d
      ∧ repScenarioCand.new_disease_id = d.id ∧ repScenarioCand.new_disease = d.name
      ∧ repScenarioCand.repurposing_score
          = repurposing_score_spec repScenarioAssoc.association_strength d.burden_score
              repScenarioAssoc.maturity :=
  (find_repurposing_spec repScenarioDB 0.4).2.2.2.1 repScenarioTherapy repScenarioAssoc
    repScenarioCand repScenario_candidateOf_eq

theorem oppWitness_opportunityFor :
    opportunityFor oppWitnessDB oppWitnessAssoc = some oppWitnessOpp := by
  have hgap : calculate_gap_score oppWitnessAssoc.association_strength
      (Disease.mk "ALZ" "Alzheimer disease" none none).burden_score
      oppWitnessAssoc.maturity = (0.15 : Rat) := by
    norm_num [calculate_gap_score, normalize, oppWitnessAssoc]
  have h50 : formatPct (0.5 : Rat) = "50%" := by
    rw [formatPct, show roundHalfEven ((0.5 : Rat) * 100) = 50 from by
      unfold roundHalfEven; norm_num]
    rfl
  have h15 : formatPct (0.15 : Rat) = "15%" := by
    rw [formatPct, show roundHalfEven ((0.15 : Rat) * 100) = 15 from by
      unfold roundHalfEven; norm_num]
    rfl
  have hrat : generate_rationale "Alzheimer disease" "APP"
      oppWitnessAssoc.association_strength
      (Disease.mk "ALZ" "Alzheimer disease" none none).burden_score
      oppWitnessAssoc.maturity (0.15 : Rat) = oppWitnessOpp.rationale := by
    show generate_rationale "Alzheimer disease" "APP" none none (some "none") (0.15 : Rat)
      = oppWitnessOpp.rationale
    rw [generate_rationale]
    rw [show pyOrRat none (0.5 : Rat) = 0.5 from rfl]
    rw [if_neg (by norm_num), if_neg (by norm_num), if_neg (by norm_num),
      if_neg (by norm_num), if_pos (Or.inl rfl), h50, h15]
    rfl
  unfold opportunityFor
  rw [if_pos (Or.inl (show oppWitnessAssoc.maturity = some "none" from rfl))]
  rw [show oppWitnessDB.diseases.find? (fun d => d.id == oppWitnessAssoc.disease_id)
      = some (Disease.mk "ALZ" "Alzheimer disease" none none) from rfl]
  rw [show oppWitnessDB.proteins.find? (fun p => p.id == oppWitnessAssoc.protein_id)
      = some (Protein.mk "APP" "P05067" (some "APP") none none) from rfl]
  dsimp only
  rw [Option.some.injEq, Opportunity.mk.injEq]
  refine ⟨rfl, rfl, hgap, ?_, rfl, rfl⟩
  rw [hgap]
  exact hrat

theorem oppWitness_mem : oppWitnessOpp ∈ calculate_opportunities oppWitnessDB 20 := by
  have h2 : calculate_opportunities oppWitnessDB 20 = [oppWitnessOpp] := by
    show (sortByKeyDesc (fun o : Opportunity => o.gap_score)
      (oppWitnessDB.associations.filterMap (opportunityFor oppWitnessDB))).take 20 = _
    rw [show oppWitnessDB.associations = [oppWitnessAssoc] from rfl]
    simp [oppWitness_opportunityFor, sortByKeyDesc]
  rw [h2]
  exact List.mem_singleton.mpr rfl

/-- Witness for the C3 theorem at a concrete store: the returned opportunity
comes from an association with maturity "none" whose disease and protein
resolve. -/
theorem calculate_opportunities_spec_witness :
    ∃ a, a ∈ oppWitnessDB.associations
      ∧ (a.maturity = some "none" ∨ a.maturity = some "trial" ∨ a.maturity = none)
      ∧ oppWitnessOpp.disease_id = a.disease_id ∧ oppWitnessOpp.protein_id = a.protein_id
      ∧ (∃ d, d ∈ oppWitnessDB.diseases ∧ d.id = a.disease_id)
      ∧ (∃ p, p ∈ oppWitnessDB.proteins ∧ p.id = a.protein_id) :=
  (calculate_opportunities_spec oppWitnessDB 20).2.2.1 oppWitnessOpp oppWitness_mem

theorem getVal_cons (ke : String) (ve : PyValue) (rest : PyRec) (k1 : String) :
    getVal ((ke, ve) :: rest) k1 = if ke = k1 then some ve else getVal rest k1 := by
  by_cases h : ke = k1
  · subst h
    rw [getVal, List.find?_cons_of_pos _ (by simp)]
    simp
  · rw [getVal, List.find?_cons_of_neg _ (by simp [h]), if_neg h]
    rfl

theorem setVal_cons_same (ke : String) (ve : PyValue) (rest : PyRec) (v : PyValue) :
    setVal ((ke, ve) :: rest) ke v = (ke, v) :: rest := by
  simp [setVal]

theorem setVal_cons_other (ke : String) (ve : PyValue) (rest : PyRec) (k : String)
    (v : PyValue) (h : ke ≠ k) :
    setVal ((ke, ve) :: rest) k v = (ke, ve) :: setVal rest k v := by
  simp [setVal, h]

theorem getVal_setVal (r : PyRec) (k : String) (v : PyValue) (k1 : String) :
    getVal (setVal r k v) k1 = if k1 = k then some v else getVal r k1 := by
  induction r with
  | nil =>
    rw [show setVal [] k v = [(k, v)] from rfl, getVal_cons]
    by_cases h : k = k1
    · rw [if_pos h, if_pos h.symm]
    · rw [if_neg h, if_neg (fun he : k1 = k => h he.symm)]
  | cons e rest ih =>
    rcases e with ⟨ke, ve⟩
    by_cases hek : ke = k
    · subst hek
      rw [setVal_cons_same, getVal_cons, getVal_cons]
      by_cases h : ke = k1
      · rw [if_pos h, if_pos h.symm]
      · rw [if_neg h, if_neg (fun he : k1 = ke => h he.symm), if_neg h]
    · rw [setVal_cons_other _ _ _ _ _ hek, getVal_cons, ih, getVal_cons]
      by_cases h : ke = k1
      · subst h
        rw [if_pos rfl, if_neg (fun he : ke = k => hek he), if_pos rfl]
      · rw [if_neg h, if_neg h]

theorem hasKey_eq_isSome (r : PyRec) (k : String) :
    hasKey r k = (getVal r k).isSome := by
  rw [hasKey, getVal]
  cases List.find? (fun e => e.1 == k) r <;> rfl

theorem mem_unionAppend (cur xs : List PyValue) (x : PyValue) :
    x ∈ unionAppend cur xs ↔ x ∈ cur ∨ x ∈ xs := by
  induction xs generalizing cur with
  | nil => simp [unionAppend]
  | cons y ys ih =>
    rw [unionAppend, List.foldl_cons]
    by_cases hy : y ∈ cur
    · rw [if_pos hy]
      have h2 := ih cur
      rw [unionAppend] at h2
      rw [h2]
      constructor
      · rintro (h | h)
        · exact Or.inl h
        · exact Or.inr (List.mem_cons_of_mem _ h)
      · rintro (h | h)
        · exact Or.inl h
        · rcases List.mem_cons.mp h with rfl | h3
          · exact Or.inl hy
          · exact Or.inr h3
    · rw [if_neg hy]
      have h2 := ih (cur ++ [y])
      rw [unionAppend] at h2
      rw [h2]
      simp only [List.mem_append, List.mem_singleton, List.mem_cons]
      tauto

/-- C7 (amended): on a name collision, `merge_therapies` leaves every field of
the canonical record other than `indications` untouched — there is no
first-writer-wins gap-fill of other fields — and set-unions the two records'
indications lists (membership in the result is membership in either list). -/
theorem merge_therapies_collision_spec (c r c2 : PyRec)
    (h : mergeIndications c r = Except.ok c2) :
    (∀ k, k ≠ "indications" → getVal c2 k = getVal c k)
    ∧ (hasKey r "indications" = false → c2 = c)
    ∧ (hasKey r "indications" = true →
        ∃ xs cur res, getVal r "indications" = some (PyValue.plist xs)
          ∧ getVal c2 "indications" = some (PyValue.plist res)
          ∧ (∀ x, x ∈ res ↔ x ∈ cur ∨ x ∈ xs)
          ∧ (getVal c "indications" = some (PyValue.plist cur)
             ∨ (hasKey c "indications" = false ∧ cur = []))) := by
  unfold mergeIndications at h
  by_cases hk : hasKey r "indications" = true
  · rw [if_pos hk] at h
    dsimp only at h
    by_cases hck : hasKey c "indications" = true
    · rw [if_pos hck] at h
      cases hr : getVal r "indications" with
      | none =>
        rw [hasKey_eq_isSome, hr] at hk
        exact absurd hk (by simp)
      | some vr =>
        rw [hr] at h
        cases vr with
        | plist xs =>
          cases hcur : getVal c "indications" with
          | none =>
            rw [hasKey_eq_isSome, hcur] at hck
            exact absurd hck (by simp)
          | some vc =>
            rw [hcur] at h
            cases vc with
            | plist cur =>
              have h3 := Except.ok.inj (show Except.ok
                (setVal c "indications" (PyValue.plist (unionAppend cur xs)))
                = Except.ok c2 from h)
              subst h3
              refine ⟨?_, ?_, ?_⟩
              · intro k hkne
                rw [getVal_setVal, if_neg hkne]
              · intro hkf
                rw [hkf] at hk
                exact absurd hk (by simp)
              · intro hkt
                exact ⟨xs, cur, unionAppend cur xs, rfl,
                  by rw [getVal_setVal, if_pos rfl], mem_unionAppend cur xs,
                  Or.inl rfl⟩
            | pnull =>
              exact Except.noConfusion
                (show (Except.error () : Except Unit PyRec) = Except.ok c2 from h)
            | pbool b =>
              exact Except.noConfusion
                (show (Except.error () : Except Unit PyRec) = Except.ok c2 from h)
            | pnum q =>
              exact Except.noConfusion
                (show (Except.error () : Except Unit PyRec) = Except.ok c2 from h)
            | pstr s2 =>
              exact Except.noConfusion
                (show (Except.error () : Except Unit PyRec) = Except.ok c2 from h)
        | pnull =>
          exact Except.noConfusion
            (show (Except.error () : Except Unit PyRec) = Except.ok c2 from h)
        | pbool b =>
          exact Except.noConfusion
            (show (Except.error () : Except Unit PyRec) = Except.ok c2 from h)
        | pnum q =>
          exact Except.noConfusion
            (show (Except.error () : Except Unit PyRec) = Except.ok c2 from h)
        | pstr s2 =>
          exact Except.noConfusion
            (show (Except.error () : Except Unit PyRec) = Except.ok c2 from h)
    · rw [if_neg hck] at h
      cases hr : getVal r "indications" with
      | none =>
        rw [hasKey_eq_isSome, hr] at hk
        exact absurd hk (by simp)
      | some vr =>
        rw [hr] at h
        cases vr with
        | plist xs =>
          rw [show getVal (setVal c "indications" (PyValue.plist [])) "indications"
              = some (PyValue.plist []) from by rw [getVal_setVal, if_pos rfl]] at h
          have h3 := Except.ok.inj (show Except.ok
            (setVal (setVal c "indications" (PyValue.plist [])) "indications"
              (PyValue.plist (unionAppend [] xs)))
            = Except.ok c2 from h)
          subst h3
          refine ⟨?_, ?_, ?_⟩
          · intro k hkne
            rw [getVal_setVal, if_neg hkne, getVal_setVal, if_neg hkne]
          · intro hkf
            rw [hkf] at hk
            exact absurd hk (by simp)
          · intro hkt
            refine ⟨xs, [], unionAppend [] xs, rfl, ?_, mem_unionAppend [] xs,
              Or.inr ⟨?_, rfl⟩⟩
            · rw [getVal_setVal, if_pos rfl]
            · simpa using hck
        | pnull =>
          exact Except.noConfusion
            (show (Except.error () : Except Unit PyRec) = Except.ok c2 from h)
        | pbool b =>
          exact Except.noConfusion
            (show (Except.error () : Except Unit PyRec) = Except.ok c2 from h)
        | pnum q =>
          exact Except.noConfusion
            (show (Except.error () : Except Unit PyRec) = Except.ok c2 from h)
        | pstr s2 =>
          exact Except.noConfusion
            (show (Except.error () : Except Unit PyRec) = Except.ok c2 from h)
  · rw [if_neg hk] at h
    simp only [Except.ok.injEq] at h
    subst h
    exact ⟨fun k hkne => rfl, fun _ => rfl, fun hkt => absurd hkt hk⟩

theorem toLower_drugx_upper : "DrugX".toLower = "drugx" := by
  rw [String.toLower, String.map_eq]
  rfl

theorem toLower_drugx_lower : "drugx".toLower = "drugx" := by
  rw [String.toLower, String.map_eq]
  rfl

theorem therCexRec1_nameKey : therapyNameKey therCexRec1 = some "drugx" := by
  show some "drugx".toLower = some "drugx"
  rw [toLower_drugx_lower]

theorem therCexRec2_nameKey : therapyNameKey therCexRec2 = some "drugx" := by
  show some "DrugX".toLower = some "drugx"
  rw [toLower_drugx_upper]

theorem therCex_merge_eval :
    merge_therapies [[therCexRec1], [therCexRec2]] = Except.ok [therCexMerged] := by
  have h1 : mergeTherapyStep [] therCexRec1 = Except.ok [("drugx", therCexRec1)] := by
    unfold mergeTherapyStep
    rw [therCexRec1_nameKey]
    rfl
  have h2 : mergeTherapyStep [("drugx", therCexRec1)] therCexRec2
      = Except.ok [("drugx", therCexMerged)] := by
    unfold mergeTherapyStep
    rw [therCexRec2_nameKey]
    rfl
  have hfold : List.foldlM
      (fun (m : List (String × PyRec)) (l : List PyRec) => List.foldlM mergeTherapyStep m l)
      ([] : List (String × PyRec)) [[therCexRec1], [therCexRec2]]
      = Except.ok [("drugx", therCexMerged)] := by
    show ((mergeTherapyStep [] therCexRec1 >>= fun s1 =>
        List.foldlM mergeTherapyStep s1 ([] : List PyRec)) >>= fun s2 =>
        List.foldlM
          (fun (m : List (String × PyRec)) (l : List PyRec) =>
            List.foldlM mergeTherapyStep m l)
          s2 [[therCexRec2]])
      = Except.ok [("drugx", therCexMerged)]
    rw [h1]
    show ((mergeTherapyStep [("drugx", therCexRec1)] therCexRec2 >>= fun s1 =>
        List.foldlM mergeTherapyStep s1 ([] : List PyRec)) >>= fun s2 =>
        List.foldlM
          (fun (m : List (String × PyRec)) (l : List PyRec) =>
            List.foldlM mergeTherapyStep m l)
          s2 ([] : List (List PyRec)))
      = Except.ok [("drugx", therCexMerged)]
    rw [h2]
    rfl
  unfold merge_therapies
  rw [hfold]
  rfl

/-- C7 counterexample: merging two sources whose records share the
case-insensitive name `drugx`, where the later record's `drugbank_id` is
present (truthy) and the canonical one's is empty (falsy), leaves the
canonical `drugbank_id` empty — no gap-fill of non-indication fields happens;
only the indications are unioned. -/
theorem merge_therapies_no_gap_fill_counterexample :
    merge_therapies [[therCexRec1], [therCexRec2]] = Except.ok [therCexMerged]
    ∧ (PyValue.pstr "DB1").truthy = true
    ∧ isEmptyField therCexRec1 "drugbank_id" = true
    ∧ getVal therCexRec2 "drugbank_id" = some (PyValue.pstr "DB1")
    ∧ getVal therCexMerged "drugbank_id" = some (PyValue.pstr "") :=
  ⟨therCex_merge_eval, rfl, rfl, rfl, rfl⟩

/-- Witness for the amended C7 theorem: applying it to the counterexample
records shows the canonical `drugbank_id` is unchanged by the collision. -/
theorem merge_therapies_collision_spec_witness :
    getVal therCexMerged "drugbank_id" = getVal therCexRec1 "drugbank_id" :=
  (merge_therapies_collision_spec therCexRec1 therCexRec2 therCexMerged
    (by rfl)).1 "drugbank_id" (by decide)

theorem isEmptyField_none (c : PyRec) (f : String) (h : getVal c f = none) :
    isEmptyField c f = true := by
  unfold isEmptyField
  rw [h]

theorem isEmptyField_some (c : PyRec) (f : String) (v : PyValue)
    (h : getVal c f = some v) : isEmptyField c f = !v.truthy := by
  unfold isEmptyField
  rw [h]

theorem gapFill_nil (c : PyRec) : gapFill c [] = c := rfl

theorem gapFill_cons (c : PyRec) (e : String × PyValue) (rest : PyRec) :
    gapFill c (e :: rest)
      = gapFill (if e.2.truthy && isEmptyField c e.1 then setVal c e.1 e.2 else c) rest := rfl

theorem gapFill_eq_self (c r : PyRec) (h : truthyFieldsCovered c r) : gapFill c r = c := by
  induction r with
  | nil => rfl
  | cons e rest ih =>
    rw [gapFill_cons]
    have hcond : (e.2.truthy && isEmptyField c e.1) = false := by
      cases ht : e.2.truthy with
      | false => rfl
      | true =>
        rw [Bool.true_and]
        exact h e (List.mem_cons_self e rest) ht
    rw [hcond]
    exact ih (fun e2 he2 => h e2 (List.mem_cons_of_mem e he2))

theorem isEmptyField_setVal (c : PyRec) (g f : String) (v : PyValue) :
    isEmptyField (setVal c g v) f = if f = g then !v.truthy else isEmptyField c f := by
  by_cases h : f = g
  · rw [if_pos h, h]
    exact isEmptyField_some _ _ _ (by rw [getVal_setVal, if_pos rfl])
  · rw [if_neg h]
    unfold isEmptyField
    rw [getVal_setVal, if_neg h]

theorem isEmptyField_gapFill_of_false (r : PyRec) (f : String) :
    ∀ (c : PyRec), isEmptyField c f = false → isEmptyField (gapFill c r) f = false := by
  induction r with
  | nil => intro c h; exact h
  | cons e rest ih =>
    intro c h
    rw [gapFill_cons]
    by_cases hcond : (e.2.truthy && isEmptyField c e.1) = true
    · rw [if_pos hcond]
      rw [Bool.and_eq_true] at hcond
      have hne : f ≠ e.1 := by
        intro hfe
        rw [hfe, hcond.2] at h
        exact Bool.noConfusion h
      refine ih (setVal c e.1 e.2) ?_
      rw [isEmptyField_setVal, if_neg hne]
      exact h
    · rw [if_neg hcond]
      exact ih c h

theorem gapFill_covers (c r : PyRec) : truthyFieldsCovered (gapFill c r) r := by
  induction r generalizing c with
  | nil => intro e he; exact absurd he (by simp)
  | cons e0 rest ih =>
    intro e he ht
    rw [gapFill_cons]
    rcases List.mem_cons.mp he with rfl | hrest
    · by_cases hcond : (e.2.truthy && isEmptyField c e.1) = true
      · rw [if_pos hcond]
        apply isEmptyField_gapFill_of_false
        rw [isEmptyField_setVal, if_pos rfl, ht]
        rfl
      · rw [if_neg hcond]
        apply isEmptyField_gapFill_of_false
        cases hEmp : isEmptyField c e.1 with
        | false => rfl
        | true => exact absurd (by rw [ht, hEmp]; rfl) hcond
    · exact ih _ e hrest ht

theorem getVal_of_mem_nodup (r : PyRec) :
    ∀ (k0 : String) (v0 : PyValue), (k0, v0) ∈ r → (r.map Prod.fst).Nodup →
      getVal r k0 = some v0 := by
  induction r with
  | nil => intro k0 v0 he hn; exact absurd he (by simp)
  | cons e0 rest ih =>
    intro k0 v0 he hnd
    obtain ⟨ke, ve⟩ := e0
    rw [List.map_cons, List.nodup_cons] at hnd
    rw [getVal_cons]
    rcases List.mem_cons.mp he with heq | hrest
    · injection heq with h1 h2
      rw [if_pos h1.symm, h2]
    · have hne : ke ≠ k0 := fun hkk =>
        hnd.1 (by rw [hkk]; exact List.mem_map.mpr ⟨(k0, v0), hrest, rfl⟩)
      rw [if_neg hne]
      exact ih k0 v0 hrest hnd.2

theorem truthyFieldsCovered_self (r : PyRec) (hnd : (r.map Prod.fst).Nodup) :
    truthyFieldsCovered r r := by
  intro e he ht
  have hv : getVal r e.1 = some e.2 := getVal_of_mem_nodup r e.1 e.2 he hnd
  rw [isEmptyField_some r e.1 e.2 hv, ht]
  rfl

theorem truthyFieldsCovered_gapFill (c r r2 : PyRec) (h : truthyFieldsCovered c r) :
    truthyFieldsCovered (gapFill c r2) r :=
  fun e he ht => isEmptyField_gapFill_of_false r2 e.1 c (h e he ht)

theorem lookupKV_nil (kv : PyValue) : lookupKV [] kv = none := rfl

theorem lookupKV_cons (k1 : PyValue) (c : PyRec) (rest : List (PyValue × PyRec))
    (kv : PyValue) :
    lookupKV ((k1, c) :: rest) kv = if k1 = kv then some c else lookupKV rest kv := by
  by_cases h : k1 = kv
  · rw [if_pos h, lookupKV, List.find?_cons_of_pos _ (by simp [h])]
    rfl
  · rw [if_neg h, lookupKV, List.find?_cons_of_neg _ (by simp [h])]
    rfl

theorem insertOrMerge_nil (kv : PyValue) (r : PyRec) :
    insertOrMerge [] kv r = [(kv, r)] := rfl

theorem insertOrMerge_cons (k1 : PyValue) (c : PyRec) (rest : List (PyValue × PyRec))
    (kv : PyValue) (r : PyRec) :
    insertOrMerge ((k1, c) :: rest) kv r
      = if k1 = kv then (k1, gapFill c r) :: rest
        else (k1, c) :: insertOrMerge rest kv r := rfl

theorem lookupKV_insertOrMerge_same (m : List (PyValue × PyRec)) (kv : PyValue)
    (r c : PyRec) (h : lookupKV m kv = some c) :
    lookupKV (insertOrMerge m kv r) kv = some (gapFill c r) := by
  induction m with
  | nil => rw [lookupKV_nil] at h; exact Option.noConfusion h
  | cons e rest ih =>
    rcases e with ⟨k1, c1⟩
    rw [lookupKV_cons] at h
    rw [insertOrMerge_cons]
    by_cases hk : k1 = kv
    · rw [if_pos hk] at h
      rw [Option.some.injEq] at h
      rw [if_pos hk, lookupKV_cons, if_pos hk, h]
    · rw [if_neg hk] at h
      rw [if_neg hk, lookupKV_cons, if_neg hk]
      exact ih h

theorem lookupKV_insertOrMerge_other (m : List (PyValue × PyRec)) (kv : PyValue)
    (r : PyRec) (kv2 : PyValue) (hne : kv2 ≠ kv) :
    lookupKV (insertOrMerge m kv r) kv2 = lookupKV m kv2 := by
  induction m with
  | nil =>
    rw [insertOrMerge_nil, lookupKV_cons,
      if_neg (fun hh : kv = kv2 => hne hh.symm)]
  | cons e rest ih =>
    rcases e with ⟨k1, c1⟩
    rw [insertOrMerge_cons]
    by_cases hk : k1 = kv
    · rw [if_pos hk, lookupKV_cons, lookupKV_cons]
      by_cases h2 : k1 = kv2
      · exact absurd (h2.symm.trans hk) hne
      · rw [if_neg h2, if_neg h2]
    · rw [if_neg hk, lookupKV_cons, lookupKV_cons]
      by_cases h2 : k1 = kv2
      · rw [if_pos h2, if_pos h2]
      · rw [if_neg h2, if_neg h2]
        exact ih

theorem lookupKV_insertOrMerge_new (m : List (PyValue × PyRec)) (kv : PyValue)
    (r : PyRec) (h : lookupKV m kv = none) :
    lookupKV (insertOrMerge m kv r) kv = some r := by
  induction m with
  | nil => rw [insertOrMerge_nil, lookupKV_cons, if_pos rfl]
  | cons e rest ih =>
    rcases e with ⟨k1, c1⟩
    rw [lookupKV_cons] at h
    by_cases hk : k1 = kv
    · rw [if_pos hk] at h; exact Option.noConfusion h
    · rw [if_neg hk] at h
      rw [insertOrMerge_cons, if_neg hk, lookupKV_cons, if_neg hk]
      exact ih h

theorem insertOrMerge_eq_of_covered (m : List (PyValue × PyRec)) (kv : PyValue)
    (r : PyRec) : ∀ (c : PyRec), lookupKV m kv = some c → gapFill c r = c →
      insertOrMerge m kv r = m := by
  induction m with
  | nil => intro c h hcov; rw [lookupKV_nil] at h; exact Option.noConfusion h
  | cons e rest ih =>
    intro c h hcov
    rcases e with ⟨k1, c1⟩
    rw [lookupKV_cons] at h
    rw [insertOrMerge_cons]
    by_cases hk : k1 = kv
    · rw [if_pos hk] at h
      rw [Option.some.injEq] at h
      rw [if_pos hk, h, hcov]
    · rw [if_neg hk] at h
      rw [if_neg hk, ih c h hcov]

theorem mergeStep_eq_none (k : String) (m : List (PyValue × PyRec)) (r : PyRec)
    (h : getVal r k = none) : mergeStep k m r = m := by
  unfold mergeStep
  rw [h]

theorem mergeStep_eq_some (k : String) (m : List (PyValue × PyRec)) (r : PyRec)
    (kv : PyValue) (h : getVal r k = some kv) :
    mergeStep k m r = if kv.truthy then insertOrMerge m kv r else m := by
  unfold mergeStep
  rw [h]

theorem mapSat_mergeStep (k : String) (m : List (PyValue × PyRec)) (r0 r : PyRec)
    (h : mapSat k m r0) : mapSat k (mergeStep k m r) r0 := by
  intro kv0 hkv0 ht0
  obtain ⟨c, hc, hcov⟩ := h kv0 hkv0 ht0
  cases hr : getVal r k with
  | none =>
    rw [mergeStep_eq_none k m r hr]
    exact ⟨c, hc, hcov⟩
  | some kv =>
    rw [mergeStep_eq_some k m r kv hr]
    by_cases ht : kv.truthy = true
    · rw [if_pos ht]
      by_cases hkk : kv0 = kv
      · subst hkk
        exact ⟨gapFill c r, lookupKV_insertOrMerge_same m kv0 r c hc,
          truthyFieldsCovered_gapFill c r0 r hcov⟩
      · refine ⟨c, ?_, hcov⟩
        rw [lookupKV_insertOrMerge_other m kv r kv0 hkk]
        exact hc
    · rw [if_neg ht]
      exact ⟨c, hc, hcov⟩

theorem mapSat_mergeStep_self (k : String) (m : List (PyValue × PyRec)) (r : PyRec)
    (hnd : (r.map Prod.fst).Nodup) : mapSat k (mergeStep k m r) r := by
  intro kv hkv ht
  rw [mergeStep_eq_some k m r kv hkv, if_pos ht]
  cases hc : lookupKV m kv with
  | none =>
    exact ⟨r, lookupKV_insertOrMerge_new m kv r hc, truthyFieldsCovered_self r hnd⟩
  | some c =>
    exact ⟨gapFill c r, lookupKV_insertOrMerge_same m kv r c hc, gapFill_covers c r⟩

theorem mapSat_foldl_preserve (k : String) (L : List PyRec) (r0 : PyRec) :
    ∀ (m : List (PyValue × PyRec)), mapSat k m r0 →
      mapSat k (List.foldl (mergeStep k) m L) r0 := by
  induction L with
  | nil => intro m h; exact h
  | cons r rest ih =>
    intro m h
    rw [List.foldl_cons]
    exact ih (mergeStep k m r) (mapSat_mergeStep k m r0 r h)

theorem mapSat_foldl (k : String) (L : List PyRec) :
    ∀ (m : List (PyValue × PyRec)), (∀ r ∈ L, (r.map Prod.fst).Nodup) →
      ∀ r ∈ L, mapSat k (List.foldl (mergeStep k) m L) r := by
  induction L with
  | nil => intro m hnd r hr; exact absurd hr (by simp)
  | cons r0 rest ih =>
    intro m hnd r hr
    rw [List.foldl_cons]
    rcases List.mem_cons.mp hr with rfl | hrest
    · exact mapSat_foldl_preserve k rest r (mergeStep k m r)
        (mapSat_mergeStep_self k m r (hnd r (by simp)))
    · exact ih (mergeStep k m r0) (fun r2 hr2 => hnd r2 (List.mem_cons_of_mem _ hr2)) r hrest

theorem mergeStep_eq_of_mapSat (k : String) (m : List (PyValue × PyRec)) (r : PyRec)
    (h : mapSat k m r) : mergeStep k m r = m := by
  cases hr : getVal r k with
  | none => exact mergeStep_eq_none k m r hr
  | some kv =>
    rw [mergeStep_eq_some k m r kv hr]
    by_cases ht : kv.truthy = true
    · rw [if_pos ht]
      obtain ⟨c, hc, hcov⟩ := h kv hr ht
      exact insertOrMerge_eq_of_covered m kv r c hc (gapFill_eq_self c r hcov)
    · rw [if_neg ht]

theorem foldl_eq_of_mapSat (k : String) (L : List PyRec) (m : List (PyValue × PyRec))
    (h : ∀ r ∈ L, mapSat k m r) : List.foldl (mergeStep k) m L = m := by
  induction L with
  | nil => rfl
  | cons r rest ih =>
    rw [List.foldl_cons, mergeStep_eq_of_mapSat k m r (h r (by simp))]
    exact ih (fun r2 hr2 => h r2 (List.mem_cons_of_mem _ hr2))

theorem mergeRecordsByKey_self_idem (k : String) (L : List PyRec)
    (hnd : ∀ r ∈ L, (r.map Prod.fst).Nodup) :
    mergeRecordsByKey k [L, L] = mergeRecordsByKey k [L] := by
  show (List.foldl (mergeStep k) (List.foldl (mergeStep k) [] L) L).map Prod.snd
    = (List.foldl (mergeStep k) [] L).map Prod.snd
  rw [foldl_eq_of_mapSat k L _ (mapSat_foldl k L [] hnd)]

/-- C8: merging a source list with itself twice yields the same canonical
record list as merging it once, for both `merge_proteins` (keyed by
`uniprot_id`) and `merge_trials` (keyed by `nct_id`), for every source list
whose records have duplicate-free field names (always true of Python dicts). -/
theorem merge_self_duplication_idempotent (L : List PyRec)
    (hnd : ∀ r ∈ L, (List.map Prod.fst r).Nodup) :
    merge_proteins [L, L] = merge_proteins [L]
    ∧ merge_trials [L, L] = merge_trials [L] :=
  ⟨mergeRecordsByKey_self_idem "uniprot_id" L hnd,
   mergeRecordsByKey_self_idem "nct_id" L hnd⟩

/-- Witness for C8: the concrete single-record source list has
duplicate-free field names and self-duplication leaves both merges
unchanged. -/
theorem merge_self_duplication_idempotent_witness :
    (∀ r ∈ mergeWitList, (List.map Prod.fst r).Nodup)
    ∧ (merge_proteins [mergeWitList, mergeWitList] = merge_proteins [mergeWitList]
       ∧ merge_trials [mergeWitList, mergeWitList] = merge_trials [mergeWitList]) :=
  ⟨by decide, merge_self_duplication_idempotent mergeWitList (by decide)⟩

/-- C9: the validation stage can raise on malformed input, contradicting the
never-raises claim: a record with truthy `id` and `name` whose `burden_score`
is the non-numeric string `"severe"` reaches the unguarded
`float(disease["burden_score"])` coercion in `validate_disease_data`, which
raises `ValueError` (modelled as `Except.error`) instead of dropping or
clamping the record. -/
theorem validate_disease_data_raises_on_nonnumeric :
    validate_disease_data
      [[("id", PyValue.pstr "D1"), ("name", PyValue.pstr "Lupus"),
        ("burden_score", PyValue.pstr "severe")]] = Except.error () := rfl

end ProteinModeler
